import Mathlib

/-!
Verification of the identity and secret-management core of the nosotros
client (src/keystore.rs, src/accounts.rs, src/nostr/keys.rs,
src/nostr/event.rs), as a shallow embedding in Lean 4.

Modelling conventions, stated once here:

* External cryptographic primitives (Argon2, ChaCha20Poly1305,
  secp256k1, SHA-256) are library calls outside the repository.  They
  are embedded symbolically and ideally: an Argon2 digest is modelled
  as the pair of its two inputs (password, salt), so the model digest
  is deterministic and collision-free, and an AEAD ciphertext is
  modelled as a record of key, nonce and plaintext whose decryption
  succeeds exactly when key and nonce match (the authenticated-tag
  contract of the real AEAD, idealised to be collision-free).
  The secp256k1 Schnorr verifier and the x-only-key validity check of
  verify_signature are passed in as an explicit oracle, and SHA-256
  composed with hex encoding is passed to calculate_id as an explicit
  hashing function, so theorems about those operations hold for every
  behaviour of the external library.

* Randomness (salts, nonces, generated keypairs, UUIDs, timestamps) is
  passed to each operation as an explicit argument.

* Rust HashMap<String, String> is modelled as an association list;
  insert replaces an existing binding and remove deletes it, matching
  HashMap lookup semantics.  serde_json round-tripping of the key map
  inside the AEAD plaintext is modelled by carrying the map itself as
  the symbolic plaintext.

* anyhow error values are modelled by the enumeration Err; each
  constructor is tagged in a comment with the message produced by the
  Rust source at that point.

* Fallible operations on a mutable AccountManager return a pair of an
  Except result and the manager state after the call, mirroring the
  fact that the Rust methods take &mut self and may have mutated the
  state even when they return Err.
-/

/-- Error taxonomy of the core, one constructor per distinct anyhow
failure site in the source. -/
inductive Err where
  /-- keystore.rs verify_password: "Invalid password" -/
  | authError
  /-- keystore.rs decrypt_keystore: "Decryption failed" -/
  | decryptError
  /-- accounts.rs load_keystore: fs read failure (missing keystore file) -/
  | storageError
  /-- accounts.rs: "Account not found" -/
  | notFound
  /-- accounts.rs import_account: "Account with this public key already exists" -/
  | duplicate
  /-- accounts.rs get_account / get_active_account: "Keystore is locked" -/
  | locked
  /-- accounts.rs get_active_account: "Active account not found in config" -/
  | activeNotFound
  /-- accounts.rs get_active_account: "Private key not found for active account" -/
  | keyNotFound
  /-- hex crate: malformed hex input -/
  | hexError
  /-- keys.rs keypair_from_hex: "Invalid secret key length" -/
  | keyLenError
  /-- secp256k1 SecretKey::from_byte_array: out-of-range scalar -/
  | scalarError
  /-- secp256k1 XOnlyPublicKey::from_byte_array: invalid x coordinate -/
  | xonlyError
  /-- event.rs verify_signature: "Invalid message length" -/
  | msgLenError
deriving DecidableEq, Repr

/-! ## Key maps (Rust HashMap<String, String>) -/
/-- The decrypted account-id to secret-key map.  Rust
HashMap<String, String>, modelled as an association list. -/
abbrev KeyMap := List (String × String)

/-- HashMap::insert: binds the key to the value, replacing any
existing binding. -/
def kmInsert (m : KeyMap) (k v : String) : KeyMap :=
  (k, v) :: m.filter (fun p => p.1 != k)

/-- HashMap::remove: deletes the binding for the key. -/
def kmRemove (m : KeyMap) (k : String) : KeyMap :=
  m.filter (fun p => p.1 != k)

/-- HashMap::get. -/
def kmLookup (m : KeyMap) (k : String) : Option String :=
  (m.find? (fun p => p.1 == k)).map (fun p => p.2)

/-! ## Symbolic model of the external cryptographic primitives -/
/-- Ideal model of an Argon2 password-hash digest: the digest is a
deterministic, collision-free function of the password and the salt,
modelled as the pair of the two inputs. -/
structure ArgonDigest where
  password : String
  salt : String
deriving DecidableEq, Repr

/-- Parsed form of the PHC password-hash string stored in the
keystore (argon2 PasswordHash::to_string embeds the salt and the
digest; the algorithm and parameter fields are constants of
Argon2::default and are omitted). -/
structure PHCString where
  salt : String
  digest : ArgonDigest
deriving DecidableEq, Repr

/-- argon2.hash_password(password, salt), as a PHC string. -/
def hashPassword (password salt : String) : PHCString :=
  { salt := salt, digest := { password := password, salt := salt } }

/-- argon2.verify_password: re-hash the candidate password with the
salt parsed from the PHC string and compare digests. -/
def phcVerify (password : String) (h : PHCString) : Bool :=
  (hashPassword password h.salt).digest == h.digest

/-- keystore.rs derive_encryption_key: the first 32 bytes of the
Argon2 digest of (password, salt).  The truncation of the ideal
digest is modelled as the identity, keeping it collision-free. -/
def derive_encryption_key (password salt : String) : ArgonDigest :=
  { password := password, salt := salt }

/-- Symbolic AEAD plaintext: the only payload the core encrypts is
the serde_json encoding of a key map, carried here as the map
itself (serde_json to_string / from_str round-trip). -/
inductive Plain where
  | keysJson (m : KeyMap)
deriving DecidableEq, Repr

/-- Symbolic ChaCha20Poly1305 ciphertext: records the key, the nonce
and the plaintext; decryption authenticates by comparing key and
nonce. -/
structure Ctxt where
  key : ArgonDigest
  nonce : List Nat
  plain : Plain
deriving DecidableEq, Repr

/-- cipher.encrypt(nonce, plaintext). -/
def aeadEncrypt (key : ArgonDigest) (nonce : List Nat) (p : Plain) : Ctxt :=
  { key := key, nonce := nonce, plain := p }

/-- cipher.decrypt(nonce, ciphertext): succeeds exactly when the key
and the nonce match the ones used at encryption time (ideal
authenticated-encryption contract). -/
def aeadDecrypt (key : ArgonDigest) (nonce : List Nat) (c : Ctxt) : Option Plain :=
  if c.key = key ∧ c.nonce = nonce then some c.plain else none

/-! ## KeystoreCrypto (src/keystore.rs) -/
/-- EncryptedKeystore of keystore.rs: salt, PHC password hash string,
AEAD nonce, ciphertext and format version. -/
structure EncryptedKeystore where
  salt : String
  password_hash : PHCString
  nonce : List Nat
  encrypted_data : Ctxt
  version : Nat
deriving DecidableEq, Repr

/-- KeystoreManager::create_keystore.  The fresh random salt and
nonce drawn inside the Rust function are passed as arguments. -/
def create_keystore (keys : KeyMap) (password salt : String) (nonce : List Nat) :
    EncryptedKeystore :=
  let password_hash := hashPassword password salt
  let encryption_key := derive_encryption_key password salt
  let keys_json := Plain.keysJson keys
  let encrypted_data := aeadEncrypt encryption_key nonce keys_json
  { salt := salt, password_hash := password_hash, nonce := nonce,
    encrypted_data := encrypted_data, version := 1 }

/-- KeystoreManager::verify_password: parse the stored PHC string
(already structured in the model) and verify the candidate
password against it. -/
def verify_password (ks : EncryptedKeystore) (password : String) : Except Err Unit :=
  if phcVerify password ks.password_hash then .ok () else .error .authError

/-- KeystoreManager::decrypt_keystore: verify the password against
the stored verifier first, then re-derive the key from the stored
salt, AEAD-decrypt and parse the key map. -/
def decrypt_keystore (ks : EncryptedKeystore) (password : String) :
    Except Err KeyMap :=
  match verify_password ks password with
  | .error e => .error e
  | .ok _ =>
    let encryption_key := derive_encryption_key password ks.salt
    match aeadDecrypt encryption_key ks.nonce ks.encrypted_data with
    | none => .error .decryptError
    | some (.keysJson m) => .ok m

/-- KeystoreManager::add_key_to_keystore: full decrypt, insert into
the whole map, re-encrypt with a fresh salt and nonce. -/
def add_key_to_keystore (ks : EncryptedKeystore) (password account_id private_key : String)
    (salt2 : String) (nonce2 : List Nat) : Except Err EncryptedKeystore :=
  match decrypt_keystore ks password with
  | .error e => .error e
  | .ok m => .ok (create_keystore (kmInsert m account_id private_key) password salt2 nonce2)

/-- KeystoreManager::remove_key_from_keystore: full decrypt, remove
from the whole map, re-encrypt with a fresh salt and nonce. -/
def remove_key_from_keystore (ks : EncryptedKeystore) (password account_id : String)
    (salt2 : String) (nonce2 : List Nat) : Except Err EncryptedKeystore :=
  match decrypt_keystore ks password with
  | .error e => .error e
  | .ok m => .ok (create_keystore (kmRemove m account_id) password salt2 nonce2)

/-! ## Hex encoding and decoding (hex crate) -/
/-- Lower-case hex digit, as emitted by hex::encode and by the
serde_json \u escape table. -/
def hexLower (n : Nat) : Char :=
  if n < 10 then Char.ofNat (48 + n) else Char.ofNat (87 + n)

/-- hex::encode of a byte sequence (lower-case). -/
def hexEncode (bs : List Nat) : String :=
  ⟨bs.flatMap (fun b => [hexLower (b / 16), hexLower (b % 16)])⟩

/-- Value of one hex character; hex::decode accepts both cases. -/
def hexCharVal (c : Char) : Option Nat :=
  if '0' ≤ c ∧ c ≤ '9' then some (c.toNat - 48)
  else if 'a' ≤ c ∧ c ≤ 'f' then some (c.toNat - 87)
  else if 'A' ≤ c ∧ c ≤ 'F' then some (c.toNat - 55)
  else none

/-- hex::decode on a character list: fails on an odd length or on a
character outside the hex alphabet. -/
def hexDecodeList : List Char → Option (List Nat)
  | [] => some []
  | [_] => none
  | h :: l :: rest =>
    match hexCharVal h, hexCharVal l, hexDecodeList rest with
    | some hv, some lv, some tl => some ((16 * hv + lv) :: tl)
    | _, _, _ => none

/-- hex::decode of a string. -/
def hexDecode (s : String) : Option (List Nat) :=
  hexDecodeList s.data

/-! ## Identity (src/nostr/keys.rs) -/
/-- Order of the secp256k1 group: the valid secret scalars are
1 .. secpOrder - 1. -/
def secpOrder : Nat :=
  0xFFFFFFFFFFFFFFFFFFFFFFFFFFFFFFFEBAAEDCE6AF48A03BBFD25E8CD0364141

/-- Big-endian byte-sequence value. -/
def bytesToNatBE (bs : List Nat) : Nat :=
  bs.foldl (fun acc b => 256 * acc + b) 0

/-- NostrKeypair of keys.rs: the secp256k1 keypair held by its
32 secret-scalar bytes. -/
structure NostrKeypair where
  secret_bytes : List Nat
deriving DecidableEq, Repr

/-- secp256k1 x-only public-key derivation
(keypair.public_key().x_only_public_key().serialize()), modelled as
an opaque deterministic injective function of the secret bytes. -/
def derive_public_key_bytes (sk : List Nat) : List Nat := sk

/-- NostrKeypair::secret_key_hex. -/
def NostrKeypair.secret_key_hex (kp : NostrKeypair) : String :=
  hexEncode kp.secret_bytes

/-- NostrKeypair::public_key_hex. -/
def NostrKeypair.public_key_hex (kp : NostrKeypair) : String :=
  hexEncode (derive_public_key_bytes kp.secret_bytes)

/-- NostrKeypair::public_key_npub: bech32 encoding with the npub
human-readable prefix, modelled as an opaque deterministic encoding
of the public-key bytes. -/
def NostrKeypair.public_key_npub (kp : NostrKeypair) : String :=
  "npub1" ++ hexEncode (derive_public_key_bytes kp.secret_bytes)

/-- keys.rs keypair_from_hex: hex-decode the secret, reject a length
other than 32 bytes, and reject a scalar that is zero or not below
the group order (secp256k1 SecretKey::from_byte_array). -/
def keypair_from_hex (secret_hex : String) : Except Err NostrKeypair :=
  match hexDecode secret_hex with
  | none => .error .hexError
  | some bytes =>
    if bytes.length ≠ 32 then .error .keyLenError
    else
      let v := bytesToNatBE bytes
      if v = 0 ∨ secpOrder ≤ v then .error .scalarError
      else .ok { secret_bytes := bytes }

/-! ## AccountStore (src/accounts.rs) -/
/-- AccountInfo record of accounts.rs. -/
structure AccountInfo where
  id : String
  name : String
  public_key_hex : String
  public_key_npub : String
  created_at : String
  is_active : Bool
deriving DecidableEq, Repr

/-- SecuritySettings of accounts.rs. -/
structure SecuritySettings where
  require_auth_for_signing : Bool
  auto_lock_timeout_minutes : Option Nat
deriving DecidableEq, Repr

/-- AccountsConfig of accounts.rs: the persisted metadata file. -/
structure AccountsConfig where
  accounts : List AccountInfo
  active_account_id : Option String
  security_settings : SecuritySettings
deriving DecidableEq, Repr

/-- UnlockedAccount: an account record paired with its live keypair. -/
structure UnlockedAccount where
  info : AccountInfo
  keypair : NostrKeypair
deriving DecidableEq, Repr

/-- AccountManager state: the in-memory AccountsConfig, the in-memory
decrypted key map while unlocked (unlocked_keys), and the durable
keystore.json file content (none while the file does not exist).
The durable accounts.json file always mirrors accounts_config after a
successful save and is not modelled separately. -/
structure AccountManager where
  accounts_config : AccountsConfig
  unlocked_keys : Option KeyMap
  keystore_file : Option EncryptedKeystore
deriving DecidableEq, Repr

/-- Default AccountsConfig written on first use by
load_accounts_config. -/
def defaultConfig : AccountsConfig :=
  { accounts := [],
    active_account_id := none,
    security_settings :=
      { require_auth_for_signing := true, auto_lock_timeout_minutes := some 30 } }

/-- AccountManager::is_unlocked. -/
def AccountManager.is_unlocked (m : AccountManager) : Bool :=
  m.unlocked_keys.isSome

/-- AccountManager::lock_keystore. -/
def AccountManager.lock_keystore (m : AccountManager) : AccountManager :=
  { m with unlocked_keys := none }

/-- AccountManager::unlock_keystore: if the keystore file does not
exist, create an empty keystore under the supplied password (with a
fresh salt and nonce), persist it and unlock with an empty map;
otherwise decrypt the stored keystore. -/
def unlock_keystore (m : AccountManager) (password salt : String) (nonce : List Nat) :
    Except Err Unit × AccountManager :=
  match m.keystore_file with
  | none =>
    let ks := create_keystore [] password salt nonce
    (.ok (), { m with keystore_file := some ks, unlocked_keys := some [] })
  | some ksf =>
    match decrypt_keystore ksf password with
    | .error e => (.error e, m)
    | .ok keys => (.ok (), { m with unlocked_keys := some keys })

/-- AccountManager::add_private_key_to_keystore: load the keystore
file, add the key through a full decrypt-insert-reencrypt, save the
result, and mirror the insertion in the in-memory map when
unlocked. -/
def add_private_key_to_keystore (m : AccountManager)
    (account_id private_key_hex password : String)
    (salt2 : String) (nonce2 : List Nat) : Except Err Unit × AccountManager :=
  match m.keystore_file with
  | none => (.error .storageError, m)
  | some ksf =>
    match add_key_to_keystore ksf password account_id private_key_hex salt2 nonce2 with
    | .error e => (.error e, m)
    | .ok updated =>
      let m1 := { m with keystore_file := some updated }
      match m1.unlocked_keys with
      | some u =>
        (.ok (), { m1 with unlocked_keys := some (kmInsert u account_id private_key_hex) })
      | none => (.ok (), m1)

/-- AccountManager::remove_private_key_from_keystore: load the
keystore file, remove the key through a full
decrypt-remove-reencrypt, save the result, and mirror the removal in
the in-memory map when unlocked. -/
def remove_private_key_from_keystore (m : AccountManager)
    (account_id password : String)
    (salt2 : String) (nonce2 : List Nat) : Except Err Unit × AccountManager :=
  match m.keystore_file with
  | none => (.error .storageError, m)
  | some ksf =>
    match remove_key_from_keystore ksf password account_id salt2 nonce2 with
    | .error e => (.error e, m)
    | .ok updated =>
      let m1 := { m with keystore_file := some updated }
      match m1.unlocked_keys with
      | some u => (.ok (), { m1 with unlocked_keys := some (kmRemove u account_id) })
      | none => (.ok (), m1)

/-- AccountManager::create_account.  The generated keypair, the fresh
UUID, the timestamp, and the salts and nonces drawn inside the call
are passed as arguments (salt, nonce for an implicit bootstrap
unlock; salt2, nonce2 for the keystore re-encryption). -/
def create_account (m : AccountManager) (name password : String)
    (kp : NostrKeypair) (uuid now salt : String) (nonce : List Nat)
    (salt2 : String) (nonce2 : List Nat) :
    Except Err AccountInfo × AccountManager :=
  let step := if m.is_unlocked then (.ok (), m) else unlock_keystore m password salt nonce
  match step with
  | (.error e, m1) => (.error e, m1)
  | (.ok _, m1) =>
    let account_info : AccountInfo :=
      { id := uuid, name := name,
        public_key_hex := kp.public_key_hex,
        public_key_npub := kp.public_key_npub,
        created_at := now,
        is_active := m1.accounts_config.accounts.isEmpty }
    match add_private_key_to_keystore m1 uuid kp.secret_key_hex password salt2 nonce2 with
    | (.error e, m2) => (.error e, m2)
    | (.ok _, m2) =>
      let cfg := m2.accounts_config
      let cfg := { cfg with accounts := cfg.accounts ++ [account_info] }
      let cfg :=
        if cfg.active_account_id.isNone then { cfg with active_account_id := some uuid }
        else cfg
      (.ok account_info, { m2 with accounts_config := cfg })

/-- AccountManager::import_account: as create_account but from
keypair_from_hex, rejecting a duplicate derived public key. -/
def import_account (m : AccountManager) (name private_key_hex password : String)
    (uuid now salt : String) (nonce : List Nat)
    (salt2 : String) (nonce2 : List Nat) :
    Except Err AccountInfo × AccountManager :=
  let step := if m.is_unlocked then (.ok (), m) else unlock_keystore m password salt nonce
  match step with
  | (.error e, m1) => (.error e, m1)
  | (.ok _, m1) =>
    match keypair_from_hex private_key_hex with
    | .error e => (.error e, m1)
    | .ok kp =>
      let public_key_hex := kp.public_key_hex
      if m1.accounts_config.accounts.any (fun acc => acc.public_key_hex == public_key_hex)
      then (.error .duplicate, m1)
      else
        let account_info : AccountInfo :=
          { id := uuid, name := name,
            public_key_hex := public_key_hex,
            public_key_npub := kp.public_key_npub,
            created_at := now,
            is_active := m1.accounts_config.accounts.isEmpty }
        match add_private_key_to_keystore m1 uuid private_key_hex password salt2 nonce2 with
        | (.error e, m2) => (.error e, m2)
        | (.ok _, m2) =>
          let cfg := m2.accounts_config
          let cfg := { cfg with accounts := cfg.accounts ++ [account_info] }
          let cfg :=
            if cfg.active_account_id.isNone then { cfg with active_account_id := some uuid }
            else cfg
          (.ok account_info, { m2 with accounts_config := cfg })

/-- AccountManager::delete_account: implicit unlock, position lookup
(Account not found), record removal, keystore key removal, and
promotion of the first remaining record when the deleted account was
the active one. -/
def delete_account (m : AccountManager) (account_id password : String)
    (salt : String) (nonce : List Nat) (salt2 : String) (nonce2 : List Nat) :
    Except Err Unit × AccountManager :=
  let step := if m.is_unlocked then (.ok (), m) else unlock_keystore m password salt nonce
  match step with
  | (.error e, m1) => (.error e, m1)
  | (.ok _, m1) =>
    match m1.accounts_config.accounts.findIdx? (fun acc => acc.id == account_id) with
    | none => (.error .notFound, m1)
    | some account_index =>
      let was_active := m1.accounts_config.active_account_id == some account_id
      let cfg := m1.accounts_config
      let m2 := { m1 with accounts_config :=
        { cfg with accounts := cfg.accounts.eraseIdx account_index } }
      match remove_private_key_from_keystore m2 account_id password salt2 nonce2 with
      | (.error e, m3) => (.error e, m3)
      | (.ok _, m3) =>
        let cfg3 := m3.accounts_config
        let cfg3 :=
          if was_active then
            { cfg3 with active_account_id := cfg3.accounts.head?.map (fun acc => acc.id) }
          else cfg3
        (.ok (), { m3 with accounts_config := cfg3 })

/-- AccountManager::set_active_account: requires the id to exist,
sets exactly the target record is_active, updates
active_account_id.  No unlock is required. -/
def set_active_account (m : AccountManager) (account_id : String) :
    Except Err Unit × AccountManager :=
  if ¬ m.accounts_config.accounts.any (fun acc => acc.id == account_id)
  then (.error .notFound, m)
  else
    let accounts := m.accounts_config.accounts.map
      (fun acc => { acc with is_active := acc.id == account_id })
    let cfg := { m.accounts_config with accounts := accounts }
    let cfg := { cfg with active_account_id := some account_id }
    (.ok (), { m with accounts_config := cfg })

/-- AccountManager::get_active_account. -/
def get_active_account (m : AccountManager) : Except Err (Option UnlockedAccount) :=
  match m.unlocked_keys with
  | none => .error .locked
  | some unlocked_keys =>
    match m.accounts_config.active_account_id with
    | none => .ok none
    | some active_id =>
      match m.accounts_config.accounts.find? (fun acc => acc.id == active_id) with
      | none => .error .activeNotFound
      | some account_info =>
        match kmLookup unlocked_keys active_id with
        | none => .error .keyNotFound
        | some private_key =>
          match keypair_from_hex private_key with
          | .error e => .error e
          | .ok keypair => .ok (some { info := account_info, keypair := keypair })

/-- AccountManager::get_account. -/
def get_account (m : AccountManager) (account_id : String) :
    Except Err (Option UnlockedAccount) :=
  match m.unlocked_keys with
  | none => .error .locked
  | some unlocked_keys =>
    match m.accounts_config.accounts.find? (fun acc => acc.id == account_id) with
    | none => .ok none
    | some account_info =>
      match kmLookup unlocked_keys account_id with
      | none => .ok none
      | some private_key =>
        match keypair_from_hex private_key with
        | .error e => .error e
        | .ok keypair => .ok (some { info := account_info, keypair := keypair })

/-- AccountManager::list_accounts. -/
def list_accounts (m : AccountManager) : List AccountInfo :=
  m.accounts_config.accounts

/-! ## EventCodec (src/nostr/event.rs) -/
/-- UnsignedEvent of event.rs: exactly the five fields that feed the
id computation.  created_at is a u64 and kind a u16 in the source;
both are carried as Nat. -/
structure UnsignedEvent where
  pubkey : String
  created_at : Nat
  kind : Nat
  tags : List (List String)
  content : String
deriving DecidableEq, Repr

/-- NostrEvent of event.rs: the signed wire form. -/
structure NostrEvent where
  id : String
  pubkey : String
  created_at : Nat
  kind : Nat
  tags : List (List String)
  content : String
  sig : String
deriving DecidableEq, Repr

/-- serde_json escape of one character inside a JSON string: quote
and backslash are escaped, the control characters 0x00-0x1F are
escaped by name or as a lower-case \u00XX sequence, everything else
is emitted verbatim. -/
def escChar (c : Char) : List Char :=
  if c = '"' then ['\\', '"']
  else if c = '\\' then ['\\', '\\']
  else if c = '\n' then ['\\', 'n']
  else if c = '\r' then ['\\', 'r']
  else if c = '\t' then ['\\', 't']
  else if c.toNat = 8 then ['\\', 'b']
  else if c.toNat = 12 then ['\\', 'f']
  else if c.toNat < 32 then
    ['\\', 'u', '0', '0', hexLower (c.toNat / 16), hexLower (c.toNat % 16)]
  else [c]

/-- serde_json body of a JSON string (every character escaped). -/
def escList (cs : List Char) : List Char :=
  cs.flatMap escChar

/-- serde_json encoding of a String value, quotes included. -/
def encStr (s : String) : List Char :=
  '"' :: (escList s.data ++ ['"'])

/-- Decimal digits of n in reverse order. -/
def natDigitsRev (n : Nat) : List Char :=
  if h : n < 10 then [Nat.digitChar n]
  else Nat.digitChar (n % 10) :: natDigitsRev (n / 10)
decreasing_by exact Nat.div_lt_self (by omega) (by omega)

/-- serde_json encoding of an unsigned integer (decimal, no leading
zeros). -/
def encNat (n : Nat) : List Char :=
  (natDigitsRev n).reverse

/-- Comma-separated concatenation of already-encoded JSON values. -/
def sepByComma : List (List Char) → List Char
  | [] => []
  | e :: es => e ++ (if es.isEmpty then [] else ',' :: sepByComma es)

/-- serde_json encoding of a JSON array from its encoded elements. -/
def encArr (elems : List (List Char)) : List Char :=
  '[' :: (sepByComma elems ++ [']'])

/-- serde_json encoding of a Vec<String>. -/
def encStrList (xs : List String) : List Char :=
  encArr (xs.map encStr)

/-- serde_json encoding of the tags Vec<Vec<String>>. -/
def encTags (tags : List (List String)) : List Char :=
  encArr (tags.map encStrList)

/-- serde_json::to_string of the fixed-position tuple
[0, pubkey, created_at, kind, tags, content] built by
UnsignedEvent::calculate_id (whitespace-minimal, positional). -/
def canonicalSerialize (e : UnsignedEvent) : String :=
  ⟨'[' :: '0' :: ',' ::
    (encStr e.pubkey ++ ',' ::
      (encNat e.created_at ++ ',' ::
        (encNat e.kind ++ ',' ::
          (encTags e.tags ++ ',' ::
            (encStr e.content ++ [']'])))))⟩

/-- UnsignedEvent::calculate_id: SHA-256 of the canonical
serialization, hex-encoded.  The external SHA-256 digest composed
with hex::encode is passed in as the hashing function sha256hex, so
every theorem below holds for each behaviour of the library. -/
def calculate_id (sha256hex : String → String) (e : UnsignedEvent) : String :=
  sha256hex (canonicalSerialize e)

/-- The two secp256k1 checks performed by verify_signature that live
in the external library: x-only public-key validity
(XOnlyPublicKey::from_byte_array) and Schnorr verification
(verify_schnorr on signature bytes, message bytes, key bytes). -/
structure SecpOracle where
  xonlyValid : List Nat → Bool
  verifySchnorr : List Nat → List Nat → List Nat → Bool

/-- NostrEvent::verify_signature: hex-decode id, sig and the supplied
public key (malformed hex is an error); a decoded sig length other
than 64 or pubkey length other than 32 returns Ok(false); an invalid
x-only key is an error; a decoded id length other than 32 is an
error; otherwise the Schnorr boolean is returned. -/
def verify_signature (secp : SecpOracle) (ev : NostrEvent) (public_key_hex : String) :
    Except Err Bool :=
  match hexDecode ev.id with
  | none => .error .hexError
  | some id_bytes =>
    match hexDecode ev.sig with
    | none => .error .hexError
    | some sig_bytes =>
      match hexDecode public_key_hex with
      | none => .error .hexError
      | some pubkey_bytes =>
        if sig_bytes.length ≠ 64 then .ok false
        else if pubkey_bytes.length ≠ 32 then .ok false
        else if ¬ secp.xonlyValid pubkey_bytes then .error .xonlyError
        else if id_bytes.length ≠ 32 then .error .msgLenError
        else .ok (secp.verifySchnorr sig_bytes id_bytes pubkey_bytes)

/-! ## Concrete instances used to evaluate the model -/
/-- A keystore sealed over the empty key map under password pw. -/
def ks0 : EncryptedKeystore := create_keystore [] "pw" "salt0" [0]

/-- An arbitrary generated keypair. -/
def kp0 : NostrKeypair := { secret_bytes := [1] }

/-- A freshly initialised manager: default configuration, unlocked
with an empty key map, keystore file present. -/
def mgr0 : AccountManager :=
  { accounts_config :=
      { accounts := [],
        active_account_id := none,
        security_settings :=
          { require_auth_for_signing := true, auto_lock_timeout_minutes := some 30 } },
    unlocked_keys := some [],
    keystore_file := some ks0 }

/-- A manager whose configuration has no accounts but a dangling
active_account_id. -/
def mgrGhost : AccountManager :=
  { accounts_config :=
      { accounts := [],
        active_account_id := some "ghost",
        security_settings :=
          { require_auth_for_signing := true, auto_lock_timeout_minutes := some 30 } },
    unlocked_keys := some [],
    keystore_file := some ks0 }

/-! ## AccountsConfig invariants (C5) -/
/-- The ids of the account records, in list order. -/
def accountIds (cfg : AccountsConfig) : List String :=
  cfg.accounts.map (fun a => a.id)

/-- active_account_id, when present, references a record. -/
def ActiveRefs (cfg : AccountsConfig) : Prop :=
  ∀ x, cfg.active_account_id = some x → x ∈ accountIds cfg

instance (cfg : AccountsConfig) : Decidable (ActiveRefs cfg) :=
  match h : cfg.active_account_id with
  | none => isTrue (by simp [ActiveRefs, h])
  | some x =>
    if hx : x ∈ accountIds cfg then
      isTrue (by simp [ActiveRefs, h]; exact hx)
    else
      isFalse (by simp [ActiveRefs]; exact ⟨x, h, hx⟩)

/-- The id of the record a equals whatever active_account_id holds. -/
def IdMatchesActive (cfg : AccountsConfig) (a : AccountInfo) : Prop :=
  ∀ x, cfg.active_account_id = some x → a.id = x

instance (cfg : AccountsConfig) (a : AccountInfo) : Decidable (IdMatchesActive cfg a) :=
  match h : cfg.active_account_id with
  | none => isTrue (by simp [IdMatchesActive, h])
  | some x =>
    if hx : a.id = x then
      isTrue (by simp [IdMatchesActive, h]; exact hx)
    else
      isFalse (by simp [IdMatchesActive]; exact ⟨x, h, hx⟩)

/-- The AccountsConfig invariant exactly as the specification states
it: at most one record has is_active = true, that record's id equals
active_account_id when both are present, and if the accounts list is
non-empty then active_account_id references a record in the list. -/
def ClaimedInv (cfg : AccountsConfig) : Prop :=
  (cfg.accounts.filter (fun a => a.is_active)).length ≤ 1 ∧
  (∀ a ∈ cfg.accounts, a.is_active = true → IdMatchesActive cfg a) ∧
  (cfg.accounts ≠ [] → ActiveRefs cfg)

instance (cfg : AccountsConfig) : Decidable (ClaimedInv cfg) := by
  unfold ClaimedInv; infer_instance

/-- The strengthened, inductive form of the invariant: every record
flagged is_active is the one named by active_account_id,
active_account_id always references a record when present, and the
record ids are pairwise distinct. -/
def StrongInv (cfg : AccountsConfig) : Prop :=
  (∀ a ∈ cfg.accounts, a.is_active = true → cfg.active_account_id = some a.id) ∧
  ActiveRefs cfg ∧
  (accountIds cfg).Nodup

instance (cfg : AccountsConfig) : Decidable (StrongInv cfg) := by
  unfold StrongInv; infer_instance

/-- A concrete account record. -/
def acct1 : AccountInfo :=
  { id := "a1", name := "alice", public_key_hex := "pk1",
    public_key_npub := "npub1x", created_at := "t1", is_active := true }

/-- Manager with one record whose secret is in the keystore and the
in-memory map. -/
def mgr1 : AccountManager :=
  { accounts_config :=
      { accounts := [acct1],
        active_account_id := some "a1",
        security_settings :=
          { require_auth_for_signing := true, auto_lock_timeout_minutes := some 30 } },
    unlocked_keys := some [("a1", "sk1")],
    keystore_file := some (create_keystore [("a1", "sk1")] "pw" "salt0" [0]) }

/-- Locked manager with no keystore file. -/
def mgrLocked : AccountManager :=
  { accounts_config :=
      { accounts := [],
        active_account_id := none,
        security_settings :=
          { require_auth_for_signing := true, auto_lock_timeout_minutes := some 30 } },
    unlocked_keys := none,
    keystore_file := none }

/-- Unlocked manager holding a record for a1 whose secret is missing
from the in-memory key map. -/
def mgrNoSecret : AccountManager :=
  { accounts_config :=
      { accounts := [acct1],
        active_account_id := some "a1",
        security_settings :=
          { require_auth_for_signing := true, auto_lock_timeout_minutes := some 30 } },
    unlocked_keys := some [],
    keystore_file := some ks0 }

/-! ## Injectivity of the canonical serialization (C4) -/
/-- Value of a lower-case hex digit character. -/
def unhexL (c : Char) : Nat :=
  if c.toNat ≤ 57 then c.toNat - 48 else c.toNat - 87

/-- One-step decoder for the serde_json character escapes, inverse
to escChar on its image. -/
def escDecode : List Char → Option (Char × List Char) :=
  fun l =>
    match l with
    | [] => none
    | c :: r =>
      if c = '\\' then
        match r with
        | [] => none
        | d :: r2 =>
          if d = '"' then some ('"', r2)
          else if d = '\\' then some ('\\', r2)
          else if d = 'n' then some ('\n', r2)
          else if d = 'r' then some ('\r', r2)
          else if d = 't' then some ('\t', r2)
          else if d = 'b' then some (Char.ofNat 8, r2)
          else if d = 'f' then some (Char.ofNat 12, r2)
          else if d = 'u' then
            match r2 with
            | '0' :: '0' :: hi :: lo :: r3 =>
              some (Char.ofNat (16 * unhexL hi + unhexL lo), r3)
            | _ => none
          else none
      else some (c, r)

/-- Base-10 value of a reversed digit list. -/
def digitsRevVal : List Char → Nat
  | [] => 0
  | c :: cs => (c.toNat - 48) + 10 * digitsRevVal cs

/-- A 64-character hex string (32 zero bytes). -/
def zeros64 : String :=
  "0000000000000000000000000000000000000000000000000000000000000000"

/-- Concrete unsigned event. -/
def ev1 : UnsignedEvent :=
  { pubkey := "pk", created_at := 1, kind := 1, tags := [["t", "x"]],
    content := "hello" }

/-- ev1 with one field changed. -/
def ev2 : UnsignedEvent :=
  { pubkey := "pk", created_at := 1, kind := 1, tags := [["t", "x"]],
    content := "hellp" }

/-- Signed event whose sig field is empty (0 decoded bytes). -/
def evBadSig : NostrEvent :=
  { id := zeros64, pubkey := "pk", created_at := 1, kind := 1, tags := [],
    content := "c", sig := "" }

/-- Signed event whose id field is not hex. -/
def evBadId : NostrEvent :=
  { id := "zz", pubkey := "pk", created_at := 1, kind := 1, tags := [],
    content := "c", sig := "" }

/-- An arbitrary concrete secp256k1 oracle. -/
def secp0 : SecpOracle :=
  { xonlyValid := fun _ => true, verifySchnorr := fun _ _ _ => false }

theorem decrypt_create (keys : KeyMap) (password salt : String) (nonce : List Nat) :
    decrypt_keystore (create_keystore keys password salt nonce) password = .ok keys := by
  simp [decrypt_keystore, create_keystore, verify_password, phcVerify, hashPassword,
    derive_encryption_key, aeadEncrypt, aeadDecrypt]

theorem decrypt_wrong_password (ks : EncryptedKeystore) (password p2 : String)
    (h : ks.password_hash = hashPassword password ks.salt) (hne : password ≠ p2) :
    decrypt_keystore ks p2 = .error .authError := by
  simp [decrypt_keystore, verify_password, phcVerify, h, hashPassword]
  rw [if_neg (fun he => hne he.symm)]

/-! ## Theorems: KeystoreCrypto claims -/
/-- C1: for every key map m and every password p (and every salt and
nonce drawn while sealing), decrypting the keystore produced by
create_keystore(m, p) with the same password p returns exactly m. -/
theorem keystore_roundtrip (keys : KeyMap) (password salt : String) (nonce : List Nat) :
    decrypt_keystore (create_keystore keys password salt nonce) password =
      Except.ok keys :=
  decrypt_create keys password salt nonce

/-- C2: decrypting a keystore sealed under p1 with a different
password p2 fails with the authentication error, and the result is
the same for every ciphertext and stored nonce, because the verifier
check happens before any key derivation or AEAD decryption. -/
theorem keystore_wrong_password_auth_error (keys : KeyMap) (p1 p2 salt : String)
    (nonce : List Nat) (h : p1 ≠ p2) :
    decrypt_keystore (create_keystore keys p1 salt nonce) p2 =
      Except.error Err.authError ∧
    ∀ (ct : Ctxt) (n2 : List Nat),
      decrypt_keystore
        { create_keystore keys p1 salt nonce with encrypted_data := ct, nonce := n2 }
        p2 = Except.error Err.authError := by
  constructor
  · exact decrypt_wrong_password _ p1 p2 rfl h
  · intro ct n2
    exact decrypt_wrong_password _ p1 p2 rfl h

theorem keystore_wrong_password_auth_error_witness :
    ("a" : String) ≠ "b" ∧
      decrypt_keystore (create_keystore [] "a" "s" [0]) "b" =
        Except.error Err.authError :=
  ⟨by decide, (keystore_wrong_password_auth_error [] "a" "b" "s" [0] (by decide)).1⟩

/-- C9: addKey on a sealed empty map yields, after decryption, the
singleton map; removeKey on a sealed two-entry map yields the map
without the removed entry; and in general each mutation is the full
decrypt-mutate-reencrypt of the entire key set. -/
theorem keystore_mutation_equivalence (p a b k k2 salt : String) (nonce : List Nat)
    (salt2 : String) (nonce2 : List Nat) (hab : a ≠ b) :
    add_key_to_keystore (create_keystore [] p salt nonce) p a k salt2 nonce2 =
      Except.ok (create_keystore [(a, k)] p salt2 nonce2) ∧
    decrypt_keystore (create_keystore [(a, k)] p salt2 nonce2) p =
      Except.ok [(a, k)] ∧
    remove_key_from_keystore (create_keystore [(a, k), (b, k2)] p salt nonce) p a
        salt2 nonce2 =
      Except.ok (create_keystore [(b, k2)] p salt2 nonce2) ∧
    decrypt_keystore (create_keystore [(b, k2)] p salt2 nonce2) p =
      Except.ok [(b, k2)] ∧
    (∀ m0 : KeyMap,
      add_key_to_keystore (create_keystore m0 p salt nonce) p a k salt2 nonce2 =
        Except.ok (create_keystore (kmInsert m0 a k) p salt2 nonce2)) ∧
    (∀ m0 : KeyMap,
      remove_key_from_keystore (create_keystore m0 p salt nonce) p a salt2 nonce2 =
        Except.ok (create_keystore (kmRemove m0 a) p salt2 nonce2)) := by
  have hadd : ∀ m0 : KeyMap,
      add_key_to_keystore (create_keystore m0 p salt nonce) p a k salt2 nonce2 =
        Except.ok (create_keystore (kmInsert m0 a k) p salt2 nonce2) := by
    intro m0
    simp [add_key_to_keystore, decrypt_create]
  have hrem : ∀ m0 : KeyMap,
      remove_key_from_keystore (create_keystore m0 p salt nonce) p a salt2 nonce2 =
        Except.ok (create_keystore (kmRemove m0 a) p salt2 nonce2) := by
    intro m0
    simp [remove_key_from_keystore, decrypt_create]
  have hba : (b != a) = true := by
    simp [bne_iff_ne]
    exact fun he => hab he.symm
  refine ⟨?_, decrypt_create _ _ _ _, ?_, decrypt_create _ _ _ _, hadd, hrem⟩
  · have := hadd []
    simpa [kmInsert] using this
  · have := hrem [(a, k), (b, k2)]
    simpa [kmRemove, hba] using this

theorem keystore_mutation_equivalence_witness :
    ("a" : String) ≠ "b" ∧
      add_key_to_keystore (create_keystore [] "p" "s" [0]) "p" "a" "k" "s2" [1] =
        Except.ok (create_keystore [("a", "k")] "p" "s2" [1]) ∧
      remove_key_from_keystore
          (create_keystore [("a", "k"), ("b", "k2")] "p" "s" [0]) "p" "a" "s2" [1] =
        Except.ok (create_keystore [("b", "k2")] "p" "s2" [1]) :=
  ⟨by decide,
    (keystore_mutation_equivalence "p" "a" "b" "k" "k2" "s" [0] "s2" [1] (by decide)).1,
    (keystore_mutation_equivalence "p" "a" "b" "k" "k2" "s" [0] "s2" [1]
      (by decide)).2.2.1⟩

/-! ## Theorems: in-memory / durable keystore synchronisation (C10) -/
/-- C10: while the store is unlocked and the in-memory key map equals
the decryption of the keystore file, adding a private key succeeds,
inserts the same entry into the in-memory map, and leaves a keystore
file whose decryption is that same updated map; removing a private
key behaves dually. -/
theorem keystore_memory_sync (m : AccountManager) (p : String) (u : KeyMap)
    (ks : EncryptedKeystore) (account_id key salt2 : String) (nonce2 : List Nat)
    (hu : m.unlocked_keys = some u) (hf : m.keystore_file = some ks)
    (hs : decrypt_keystore ks p = Except.ok u) :
    (∃ m', add_private_key_to_keystore m account_id key p salt2 nonce2 =
        (Except.ok (), m') ∧
      m'.unlocked_keys = some (kmInsert u account_id key) ∧
      ∃ ks', m'.keystore_file = some ks' ∧
        decrypt_keystore ks' p = Except.ok (kmInsert u account_id key)) ∧
    (∃ m', remove_private_key_from_keystore m account_id p salt2 nonce2 =
        (Except.ok (), m') ∧
      m'.unlocked_keys = some (kmRemove u account_id) ∧
      ∃ ks', m'.keystore_file = some ks' ∧
        decrypt_keystore ks' p = Except.ok (kmRemove u account_id)) := by
  obtain ⟨cfg, uk, kf⟩ := m
  obtain rfl : uk = some u := hu
  obtain rfl : kf = some ks := hf
  have h1 : add_key_to_keystore ks p account_id key salt2 nonce2 =
      Except.ok (create_keystore (kmInsert u account_id key) p salt2 nonce2) := by
    simp [add_key_to_keystore, hs]
  have h2 : remove_key_from_keystore ks p account_id salt2 nonce2 =
      Except.ok (create_keystore (kmRemove u account_id) p salt2 nonce2) := by
    simp [remove_key_from_keystore, hs]
  constructor
  · refine
      ⟨{ accounts_config := cfg,
         unlocked_keys := some (kmInsert u account_id key),
         keystore_file :=
           some (create_keystore (kmInsert u account_id key) p salt2 nonce2) },
        ?_, rfl, ⟨_, rfl, decrypt_create _ _ _ _⟩⟩
    simp [add_private_key_to_keystore, h1]
  · refine
      ⟨{ accounts_config := cfg,
         unlocked_keys := some (kmRemove u account_id),
         keystore_file :=
           some (create_keystore (kmRemove u account_id) p salt2 nonce2) },
        ?_, rfl, ⟨_, rfl, decrypt_create _ _ _ _⟩⟩
    simp [remove_private_key_from_keystore, h2]

theorem nodup_all_eq_length_le {l : List String} {x : String}
    (hnd : l.Nodup) (hall : ∀ y ∈ l, y = x) : l.length ≤ 1 := by
  match l with
  | [] => simp
  | [_] => simp
  | y1 :: y2 :: t =>
    exfalso
    have h1 : y1 = x := hall y1 (by simp)
    have h2 : y2 = x := hall y2 (by simp)
    rw [List.nodup_cons] at hnd
    exact hnd.1 (by simp [h1, h2])

theorem strongInv_implies_claimedInv (cfg : AccountsConfig) (h : StrongInv cfg) :
    ClaimedInv cfg := by
  obtain ⟨h1, h2, h3⟩ := h
  refine ⟨?_, ?_, fun _ => h2⟩
  case refine_2 =>
    intro a ha hab x hx
    have := h1 a ha hab
    rw [this] at hx
    exact Option.some.inj hx
  · rcases hact : cfg.active_account_id with _ | x
    · have : cfg.accounts.filter (fun a => a.is_active) = [] := by
        rw [List.filter_eq_nil_iff]
        intro a ha hab
        exact absurd (hact ▸ h1 a ha hab) (by simp)
      simp [this]
    · have hsub : List.Sublist ((cfg.accounts.filter (fun a => a.is_active)).map
          (fun a => a.id)) (accountIds cfg) :=
        List.Sublist.map _ (List.filter_sublist _)
      have hnd := List.Nodup.sublist hsub h3
      have hall : ∀ y ∈ (cfg.accounts.filter (fun a => a.is_active)).map
          (fun a => a.id), y = x := by
        intro y hy
        simp only [List.mem_map, List.mem_filter] at hy
        obtain ⟨a, ⟨ha, hab⟩, rfl⟩ := hy
        have := h1 a ha hab
        rw [hact] at this
        exact (Option.some.injEq _ _ ▸ this).symm
      have := nodup_all_eq_length_le hnd hall
      simpa using this

theorem strongInv_append (cfg : AccountsConfig) (info : AccountInfo)
    (ss : SecuritySettings)
    (hinv : StrongInv cfg) (hfresh : info.id ∉ accountIds cfg)
    (hact : info.is_active = cfg.accounts.isEmpty) :
    StrongInv
      { accounts := cfg.accounts ++ [info],
        active_account_id :=
          if cfg.active_account_id.isNone then some info.id
          else cfg.active_account_id,
        security_settings := ss } := by
  obtain ⟨h1, h2, h3⟩ := hinv
  have hnd : (accountIds cfg ++ [info.id]).Nodup := by
    simp [List.nodup_append, h3, hfresh]
  rcases hca : cfg.active_account_id with _ | x
  · -- no active account configured: the new id becomes active
    refine ⟨?_, ?_, ?_⟩
    · intro a ha hab
      simp only [List.mem_append, List.mem_singleton] at ha
      rcases ha with ha | rfl
      · exact absurd (hca ▸ h1 a ha hab) (by simp)
      · simp
    · intro x hx
      simp only [Option.isNone_none, if_true] at hx
      cases hx
      simp [accountIds]
    · have : accountIds
          { accounts := cfg.accounts ++ [info],
            active_account_id := if (none : Option String).isNone then some info.id
              else none,
            security_settings := ss } = accountIds cfg ++ [info.id] := by
        simp [accountIds]
      rw [this]
      exact hnd
  · -- an active account exists: it stays active, the new record is not
    have hne : cfg.accounts ≠ [] := by
      intro he
      have := h2 x hca
      simp [accountIds, he] at this
    have hemp : cfg.accounts.isEmpty = false := by
      simpa [List.isEmpty_iff] using hne
    refine ⟨?_, ?_, ?_⟩
    · intro a ha hab
      simp only [List.mem_append, List.mem_singleton] at ha
      rcases ha with ha | rfl
      · have hh := h1 a ha hab
        rw [hca] at hh
        simpa using hh
      · rw [hact, hemp] at hab; cases hab
    · intro y hy
      simp only [Option.isNone_some, if_false] at hy
      cases hy
      have hmm := h2 x hca
      simp only [accountIds, List.map_append] at hmm ⊢
      exact List.mem_append_left _ hmm
    · have : accountIds
          { accounts := cfg.accounts ++ [info],
            active_account_id := if (some x).isNone then some info.id else some x,
            security_settings := ss } = accountIds cfg ++ [info.id] := by
        simp [accountIds]
      rw [this]
      exact hnd

theorem strongInv_set_active (cfg : AccountsConfig) (target : String)
    (hinv : StrongInv cfg)
    (hmem : cfg.accounts.any (fun acc => acc.id == target) = true) :
    StrongInv
      { accounts :=
          cfg.accounts.map (fun acc => { acc with is_active := acc.id == target }),
        active_account_id := some target,
        security_settings := cfg.security_settings } := by
  obtain ⟨_, _, h3⟩ := hinv
  have hids : accountIds
      { accounts :=
          cfg.accounts.map (fun acc => { acc with is_active := acc.id == target }),
        active_account_id := some target,
        security_settings := cfg.security_settings } = accountIds cfg := by
    simp only [accountIds, List.map_map]
    rfl
  refine ⟨?_, ?_, ?_⟩
  · intro a ha hab
    simp only [List.mem_map] at ha
    obtain ⟨b, hb, rfl⟩ := ha
    simp only at hab
    simp only [Option.some.injEq]
    exact (eq_of_beq hab).symm
  · intro x hx
    cases hx
    rw [hids]
    rw [List.any_eq_true] at hmem
    obtain ⟨b, hb, hbt⟩ := hmem
    have hbe := eq_of_beq hbt
    exact hbe ▸ List.mem_map_of_mem _ hb
  · rw [hids]; exact h3

theorem map_eraseIdx {α β : Type} (l : List α) (f : α → β) (i : Nat) :
    (l.eraseIdx i).map f = (l.map f).eraseIdx i := by
  rw [List.eraseIdx_eq_take_drop_succ, List.eraseIdx_eq_take_drop_succ]
  rw [List.map_append, List.map_take, List.map_drop]

theorem strongInv_erase (cfg : AccountsConfig) (delId : String) (i : Nat)
    (hinv : StrongInv cfg)
    (hfind : cfg.accounts.findIdx? (fun acc => acc.id == delId) = some i) :
    StrongInv
      { accounts := cfg.accounts.eraseIdx i,
        active_account_id :=
          if cfg.active_account_id == some delId
          then ((cfg.accounts.eraseIdx i).head?.map (fun acc => acc.id))
          else cfg.active_account_id,
        security_settings := cfg.security_settings } := by
  obtain ⟨h1, h2, h3⟩ := hinv
  rw [List.findIdx?_eq_some_iff_getElem] at hfind
  obtain ⟨hi, hpi, _⟩ := hfind
  have hdel : cfg.accounts[i].id = delId := eq_of_beq hpi
  have hidlen : i < (accountIds cfg).length := by simpa [accountIds]
  have hidsi : (accountIds cfg)[i] = delId := by
    simp [accountIds, hdel]
  have hdecomp : accountIds cfg =
      (accountIds cfg).take i ++ delId :: (accountIds cfg).drop (i + 1) := by
    conv_lhs => rw [← List.take_append_drop i (accountIds cfg)]
    rw [List.drop_eq_getElem_cons hidlen, hidsi]
  have herase_ids : (cfg.accounts.eraseIdx i).map (fun a => a.id) =
      (accountIds cfg).eraseIdx i := by
    rw [accountIds, map_eraseIdx]
  have herase2 : (accountIds cfg).eraseIdx i =
      (accountIds cfg).take i ++ (accountIds cfg).drop (i + 1) :=
    List.eraseIdx_eq_take_drop_succ _ _
  have hnd2 := h3
  rw [hdecomp, List.nodup_append] at hnd2
  obtain ⟨hndt, hndd, hdisj⟩ := hnd2
  rw [List.nodup_cons] at hndd
  have hdelnotin : delId ∉ (accountIds cfg).eraseIdx i := by
    intro hmem
    rw [herase2, List.mem_append] at hmem
    rcases hmem with hk | hk
    · exact hdisj hk (by simp)
    · exact hndd.1 hk
  have htransfer : ∀ x, x ∈ accountIds cfg → x ≠ delId →
      x ∈ (accountIds cfg).eraseIdx i := by
    intro x hx hne
    rw [herase2, List.mem_append]
    rw [hdecomp, List.mem_append, List.mem_cons] at hx
    rcases hx with hx | hx | hx
    · exact Or.inl hx
    · exact absurd hx hne
    · exact Or.inr hx
  refine ⟨?_, ?_, ?_⟩
  · intro a ha hab
    have haa : a ∈ cfg.accounts := (List.eraseIdx_sublist _ _).subset ha
    have h1a := h1 a haa hab
    simp only
    by_cases hw : (cfg.active_account_id == some delId) = true
    · exfalso
      have hadel : a.id = delId := by
        have := eq_of_beq hw
        rw [this] at h1a
        exact (Option.some.inj h1a).symm
      have : a.id ∈ (cfg.accounts.eraseIdx i).map (fun a => a.id) :=
        List.mem_map_of_mem _ ha
      rw [herase_ids, hadel] at this
      exact hdelnotin this
    · rw [if_neg hw]
      exact h1a
  · intro x hx
    simp only at hx
    by_cases hw : (cfg.active_account_id == some delId) = true
    · rw [if_pos hw] at hx
      rw [Option.map_eq_some'] at hx
      obtain ⟨hd, hhd, rfl⟩ := hx
      have : hd ∈ cfg.accounts.eraseIdx i := List.mem_of_mem_head? hhd
      simpa [accountIds] using List.mem_map_of_mem (fun a => a.id) this
    · rw [if_neg hw] at hx
      have hxne : x ≠ delId := by
        intro he
        rw [he] at hx
        exact hw (by simp [hx])
      have hmem := htransfer x (h2 x hx) hxne
      rw [← herase_ids] at hmem
      simpa [accountIds] using hmem
  · have : accountIds
        { accounts := cfg.accounts.eraseIdx i,
          active_account_id :=
            if cfg.active_account_id == some delId
            then ((cfg.accounts.eraseIdx i).head?.map (fun acc => acc.id))
            else cfg.active_account_id,
          security_settings := cfg.security_settings } =
        (accountIds cfg).eraseIdx i := by
      rw [accountIds] at herase_ids ⊢
      exact herase_ids
    rw [this]
    exact h3.sublist (List.eraseIdx_sublist _ _)

theorem unlock_config_eq (m : AccountManager) (p s : String) (n : List Nat) :
    ((unlock_keystore m p s n).2).accounts_config = m.accounts_config := by
  unfold unlock_keystore
  split
  · rfl
  · split <;> rfl

theorem addkey_config_eq (m : AccountManager) (a k p s2 : String) (n2 : List Nat) :
    ((add_private_key_to_keystore m a k p s2 n2).2).accounts_config =
      m.accounts_config := by
  unfold add_private_key_to_keystore
  split
  · rfl
  · split
    · rfl
    · dsimp only
      split <;> rfl

theorem removekey_config_eq (m : AccountManager) (a p s2 : String) (n2 : List Nat) :
    ((remove_private_key_from_keystore m a p s2 n2).2).accounts_config =
      m.accounts_config := by
  unfold remove_private_key_from_keystore
  split
  · rfl
  · split
    · rfl
    · dsimp only
      split <;> rfl

theorem config_update_normal (C : AccountsConfig) (info : AccountInfo) (theId : String) :
    (if ({ C with accounts := C.accounts ++ [info] } :
          AccountsConfig).active_account_id.isNone
     then { ({ C with accounts := C.accounts ++ [info] } : AccountsConfig) with
              active_account_id := some theId }
     else { C with accounts := C.accounts ++ [info] })
    = { accounts := C.accounts ++ [info],
        active_account_id :=
          if C.active_account_id.isNone then some theId else C.active_account_id,
        security_settings := C.security_settings } := by
  by_cases h : C.active_account_id.isNone <;> simp [h]

theorem step_config_eq (m : AccountManager) (password salt : String) (nonce : List Nat) :
    ∀ (r : Except Err Unit) (m1 : AccountManager),
      (if m.is_unlocked then ((Except.ok () : Except Err Unit), m)
       else unlock_keystore m password salt nonce) = (r, m1) →
      m1.accounts_config = m.accounts_config := by
  intro r m1 h
  by_cases hu : m.is_unlocked
  · rw [if_pos hu] at h
    cases h
    rfl
  · rw [if_neg hu] at h
    have := unlock_config_eq m password salt nonce
    rw [h] at this
    exact this

theorem create_account_strongInv (m : AccountManager) (name password : String)
    (kp : NostrKeypair) (uuid now salt : String) (nonce : List Nat)
    (salt2 : String) (nonce2 : List Nat)
    (hinv : StrongInv m.accounts_config)
    (hfresh : uuid ∉ accountIds m.accounts_config) :
    StrongInv
      ((create_account m name password kp uuid now salt nonce salt2 nonce2).2).accounts_config := by
  unfold create_account
  by_cases hu : m.is_unlocked
  · rw [if_pos hu]
    dsimp only
    split
    next e2 m2 heq2 =>
      have e2c := addkey_config_eq m uuid kp.secret_key_hex password salt2 nonce2
      rw [heq2] at e2c
      exact e2c.symm ▸ hinv
    next u2 m2 heq2 =>
      have e2c : m2.accounts_config = m.accounts_config := by
        have := addkey_config_eq m uuid kp.secret_key_hex password salt2 nonce2
        rw [heq2] at this
        exact this
      dsimp only
      rw [config_update_normal, e2c]
      exact strongInv_append m.accounts_config _ _ hinv hfresh rfl
  · rw [if_neg hu]
    dsimp only
    split
    next e m1 heq =>
      have e1 := unlock_config_eq m password salt nonce
      rw [heq] at e1
      exact e1.symm ▸ hinv
    next u m1 heq =>
      have e1 : m1.accounts_config = m.accounts_config := by
        have := unlock_config_eq m password salt nonce
        rw [heq] at this
        exact this
      try dsimp only
      split
      next e2 m2 heq2 =>
        have e2c := addkey_config_eq m1 uuid kp.secret_key_hex password salt2 nonce2
        rw [heq2] at e2c
        exact (e2c.trans e1).symm ▸ hinv
      next u2 m2 heq2 =>
        have e2c : m2.accounts_config = m1.accounts_config := by
          have := addkey_config_eq m1 uuid kp.secret_key_hex password salt2 nonce2
          rw [heq2] at this
          exact this
        dsimp only
        rw [config_update_normal, e2c, e1]
        exact strongInv_append m.accounts_config _ _ hinv hfresh rfl

theorem import_account_strongInv (m : AccountManager) (name private_key_hex password : String)
    (uuid now salt : String) (nonce : List Nat) (salt2 : String) (nonce2 : List Nat)
    (hinv : StrongInv m.accounts_config)
    (hfresh : uuid ∉ accountIds m.accounts_config) :
    StrongInv
      ((import_account m name private_key_hex password uuid now salt nonce
        salt2 nonce2).2).accounts_config := by
  unfold import_account
  by_cases hu : m.is_unlocked
  · rw [if_pos hu]
    dsimp only
    split
    · exact hinv
    next kp hkp =>
      by_cases hdup :
          (m.accounts_config.accounts.any
            (fun acc => acc.public_key_hex == kp.public_key_hex)) = true
      · rw [if_pos hdup]
        exact hinv
      · rw [if_neg hdup]
        try dsimp only
        split
        next e2 m2 heq2 =>
          have e2c := addkey_config_eq m uuid private_key_hex password salt2 nonce2
          rw [heq2] at e2c
          exact e2c.symm ▸ hinv
        next u2 m2 heq2 =>
          have e2c : m2.accounts_config = m.accounts_config := by
            have := addkey_config_eq m uuid private_key_hex password salt2 nonce2
            rw [heq2] at this
            exact this
          dsimp only
          rw [config_update_normal, e2c]
          exact strongInv_append m.accounts_config _ _ hinv hfresh rfl
  · rw [if_neg hu]
    dsimp only
    split
    next e m1 heq =>
      have e1 := unlock_config_eq m password salt nonce
      rw [heq] at e1
      exact e1.symm ▸ hinv
    next u m1 heq =>
      have e1 : m1.accounts_config = m.accounts_config := by
        have := unlock_config_eq m password salt nonce
        rw [heq] at this
        exact this
      try dsimp only
      split
      · exact e1.symm ▸ hinv
      next kp hkp =>
        by_cases hdup :
            (m1.accounts_config.accounts.any
              (fun acc => acc.public_key_hex == kp.public_key_hex)) = true
        · rw [if_pos hdup]
          exact e1.symm ▸ hinv
        · rw [if_neg hdup]
          try dsimp only
          split
          next e2 m2 heq2 =>
            have e2c := addkey_config_eq m1 uuid private_key_hex password salt2 nonce2
            rw [heq2] at e2c
            exact (e2c.trans e1).symm ▸ hinv
          next u2 m2 heq2 =>
            have e2c : m2.accounts_config = m1.accounts_config := by
              have := addkey_config_eq m1 uuid private_key_hex password salt2 nonce2
              rw [heq2] at this
              exact this
            dsimp only
            rw [config_update_normal, e2c, e1]
            exact strongInv_append m.accounts_config _ _ hinv hfresh rfl

theorem set_active_strongInv (m : AccountManager) (account_id : String)
    (hinv : StrongInv m.accounts_config) :
    StrongInv ((set_active_account m account_id).2).accounts_config := by
  unfold set_active_account
  by_cases hmem :
      (m.accounts_config.accounts.any (fun acc => acc.id == account_id)) = true
  · rw [if_neg (fun h => h hmem)]
    dsimp only
    exact strongInv_set_active m.accounts_config account_id hinv hmem
  · rw [if_pos hmem]
    exact hinv

theorem if_config_push (p : Prop) [inst : Decidable p] (X : List AccountInfo)
    (A1 A2 : Option String) (S : SecuritySettings) :
    (if p then
      ({ accounts := X, active_account_id := A1, security_settings := S } :
        AccountsConfig)
     else { accounts := X, active_account_id := A2, security_settings := S })
    = { accounts := X, active_account_id := if p then A1 else A2,
        security_settings := S } := by
  split <;> rfl

theorem delete_account_strongInv (m : AccountManager) (account_id password : String)
    (salt : String) (nonce : List Nat) (salt2 : String) (nonce2 : List Nat)
    (hinv : StrongInv m.accounts_config) (m' : AccountManager)
    (hok : delete_account m account_id password salt nonce salt2 nonce2 =
      (Except.ok (), m')) :
    StrongInv m'.accounts_config := by
  unfold delete_account at hok
  by_cases hu : m.is_unlocked
  · rw [if_pos hu] at hok
    dsimp only at hok
    split at hok
    · simp at hok
    next idx hfind =>
      try dsimp only at hok
      split at hok
      next e3 m3 heq3 => simp at hok
      next u3 m3 heq3 =>
        injection hok with hA hB
        subst hB
        have e3 : m3.accounts_config =
            { m.accounts_config with
              accounts := m.accounts_config.accounts.eraseIdx idx } := by
          have h := congrArg
            (fun z : Except Err Unit × AccountManager => z.2.accounts_config) heq3
          dsimp only at h
          rw [removekey_config_eq] at h
          exact h.symm
        try dsimp only
        rw [e3]
        try dsimp only
        rw [if_config_push]
        exact strongInv_erase m.accounts_config account_id idx hinv hfind
  · rw [if_neg hu] at hok
    dsimp only at hok
    split at hok
    next e m1 heq => simp at hok
    next u m1 heq =>
      have e1 : m1.accounts_config = m.accounts_config := by
        have := unlock_config_eq m password salt nonce
        rw [heq] at this
        exact this
      try dsimp only at hok
      split at hok
      · simp at hok
      next idx hfind =>
        try dsimp only at hok
        split at hok
        next e3 m3 heq3 => simp at hok
        next u3 m3 heq3 =>
          injection hok with hA hB
          subst hB
          have e3 : m3.accounts_config =
              { m1.accounts_config with
                accounts := m1.accounts_config.accounts.eraseIdx idx } := by
            have h := congrArg
              (fun z : Except Err Unit × AccountManager => z.2.accounts_config) heq3
            dsimp only at h
            rw [removekey_config_eq] at h
            exact h.symm
          rw [e1] at hfind
          try dsimp only
          rw [e3, e1]
          try dsimp only
          rw [if_config_push]
          exact strongInv_erase m.accounts_config account_id idx hinv hfind

/-! ## Theorems: AccountsConfig invariant (C5) -/
/-- C5 counterexample: a configuration with an empty accounts list
and a dangling active_account_id satisfies the invariant exactly as
the specification states it, yet a successful create_account from
that state produces a configuration that violates it (the new record
is flagged active while active_account_id still names the ghost id). -/
theorem create_account_violates_claimed_invariant :
    ClaimedInv mgrGhost.accounts_config ∧
    ¬ ClaimedInv
      ((create_account mgrGhost "alice" "pw" kp0 "u1" "now" "s" [0] "s2"
        [1]).2).accounts_config := by
  constructor
  · decide
  · decide

/-- C5 (amended): every AccountStore operation that returns success
preserves the strengthened AccountsConfig invariant (every is_active
record is the one named by active_account_id, active_account_id
always references a record when present, and record ids are
pairwise distinct, with freshly generated uuids assumed new); the
strengthened invariant implies the one stated by the specification
and holds for the initial configuration.  create_account,
import_account and set_active_account preserve it on their failure
paths as well; a delete_account that fails after the record removal
(for example on a wrong password) is the one path that can leave the
in-memory configuration outside the invariant. -/
theorem account_operations_preserve_invariant :
    (∀ (m : AccountManager) (name password : String) (kp : NostrKeypair)
       (uuid now salt : String) (nonce : List Nat) (salt2 : String)
       (nonce2 : List Nat),
       StrongInv m.accounts_config → uuid ∉ accountIds m.accounts_config →
       StrongInv ((create_account m name password kp uuid now salt nonce salt2
         nonce2).2).accounts_config) ∧
    (∀ (m : AccountManager) (name private_key_hex password uuid now salt : String)
       (nonce : List Nat) (salt2 : String) (nonce2 : List Nat),
       StrongInv m.accounts_config → uuid ∉ accountIds m.accounts_config →
       StrongInv ((import_account m name private_key_hex password uuid now salt
         nonce salt2 nonce2).2).accounts_config) ∧
    (∀ (m : AccountManager) (account_id password salt : String) (nonce : List Nat)
       (salt2 : String) (nonce2 : List Nat) (m' : AccountManager),
       StrongInv m.accounts_config →
       delete_account m account_id password salt nonce salt2 nonce2 =
         (Except.ok (), m') →
       StrongInv m'.accounts_config) ∧
    (∀ (m : AccountManager) (account_id : String),
       StrongInv m.accounts_config →
       StrongInv ((set_active_account m account_id).2).accounts_config) ∧
    (∀ cfg : AccountsConfig, StrongInv cfg → ClaimedInv cfg) ∧
    StrongInv mgr0.accounts_config :=
  ⟨fun m name password kp uuid now salt nonce salt2 nonce2 h1 h2 =>
     create_account_strongInv m name password kp uuid now salt nonce salt2 nonce2 h1 h2,
   fun m name phex password uuid now salt nonce salt2 nonce2 h1 h2 =>
     import_account_strongInv m name phex password uuid now salt nonce salt2 nonce2 h1 h2,
   fun m aid password salt nonce salt2 nonce2 m' h1 h2 =>
     delete_account_strongInv m aid password salt nonce salt2 nonce2 h1 m' h2,
   fun m aid h => set_active_strongInv m aid h,
   strongInv_implies_claimedInv,
   by decide⟩

theorem account_operations_preserve_invariant_witness :
    StrongInv mgr0.accounts_config ∧
    ("u1" ∉ accountIds mgr0.accounts_config) ∧
    StrongInv
      ((create_account mgr0 "alice" "pw" kp0 "u1" "now" "s" [0] "s2"
        [1]).2).accounts_config :=
  ⟨by decide, by decide,
    account_operations_preserve_invariant.1 mgr0 "alice" "pw" kp0 "u1" "now" "s" [0]
      "s2" [1] (by decide) (by decide)⟩

theorem keystore_memory_sync_witness :
    decrypt_keystore ks0 "pw" = Except.ok [] ∧
    (∃ m', add_private_key_to_keystore mgr0 "a" "k" "pw" "s2" [1] =
        (Except.ok (), m') ∧
      m'.unlocked_keys = some (kmInsert [] "a" "k") ∧
      ∃ ks', m'.keystore_file = some ks' ∧
        decrypt_keystore ks' "pw" = Except.ok (kmInsert [] "a" "k")) :=
  ⟨decrypt_create [] "pw" "salt0" [0],
    (keystore_memory_sync mgr0 "pw" [] ks0 "a" "k" "s2" [1] rfl rfl
      (decrypt_create [] "pw" "salt0" [0])).1⟩

/-! ## Theorems: delete_account behaviour (C6) -/
/-- C6: with the store unlocked, delete_account fails with the
not-found error when no record has the id (leaving the state
unchanged); when a record exists and the keystore file is sealed
under the supplied password, it succeeds, removes exactly that
record, removes the secret from the keystore file and the in-memory
map, and sets active_account_id to the first remaining record in
list order (none when the list became empty) exactly when the
deleted account was the active one. -/
theorem delete_account_spec (m : AccountManager) (account_id password salt : String)
    (nonce : List Nat) (salt2 : String) (nonce2 : List Nat) (u km : KeyMap)
    (s0 : String) (n0 : List Nat) (hu : m.unlocked_keys = some u) :
    (m.accounts_config.accounts.findIdx? (fun acc => acc.id == account_id) = none →
      delete_account m account_id password salt nonce salt2 nonce2 =
        (Except.error Err.notFound, m)) ∧
    (∀ idx,
      m.accounts_config.accounts.findIdx? (fun acc => acc.id == account_id) =
        some idx →
      m.keystore_file = some (create_keystore km password s0 n0) →
      ∃ m', delete_account m account_id password salt nonce salt2 nonce2 =
          (Except.ok (), m') ∧
        m'.accounts_config.accounts = m.accounts_config.accounts.eraseIdx idx ∧
        m'.accounts_config.active_account_id =
          (if m.accounts_config.active_account_id == some account_id
           then ((m.accounts_config.accounts.eraseIdx idx).head?.map (fun a => a.id))
           else m.accounts_config.active_account_id) ∧
        m'.unlocked_keys = some (kmRemove u account_id) ∧
        ∃ ks', m'.keystore_file = some ks' ∧
          decrypt_keystore ks' password = Except.ok (kmRemove km account_id)) := by
  obtain ⟨cfg, uk, kf⟩ := m
  obtain rfl : uk = some u := hu
  constructor
  · intro hnone
    simp only [delete_account, AccountManager.is_unlocked, Option.isSome_some,
      if_true]
    rw [hnone]
  · intro idx hfind hks
    obtain rfl : kf = some (create_keystore km password s0 n0) := hks
    have hrem : remove_key_from_keystore (create_keystore km password s0 n0)
        password account_id salt2 nonce2 =
        Except.ok (create_keystore (kmRemove km account_id) password salt2 nonce2) := by
      simp [remove_key_from_keystore, decrypt_create]
    by_cases hw : (cfg.active_account_id == some account_id) = true
    · refine ⟨AccountManager.mk
          (AccountsConfig.mk (cfg.accounts.eraseIdx idx)
            ((cfg.accounts.eraseIdx idx).head?.map (fun a => a.id))
            cfg.security_settings)
          (some (kmRemove u account_id))
          (some (create_keystore (kmRemove km account_id) password salt2 nonce2)),
        ?_, by simp, by simp [hw], by simp, ⟨_, rfl, decrypt_create _ _ _ _⟩⟩
      simp only [delete_account, AccountManager.is_unlocked, Option.isSome_some,
        if_true]
      rw [hfind]
      simp only [remove_private_key_from_keystore, hrem]
      simp [hw]
    · refine ⟨AccountManager.mk
          (AccountsConfig.mk (cfg.accounts.eraseIdx idx)
            cfg.active_account_id
            cfg.security_settings)
          (some (kmRemove u account_id))
          (some (create_keystore (kmRemove km account_id) password salt2 nonce2)),
        ?_, by simp, by simp [hw], by simp, ⟨_, rfl, decrypt_create _ _ _ _⟩⟩
      simp only [delete_account, AccountManager.is_unlocked, Option.isSome_some,
        if_true]
      rw [hfind]
      simp only [remove_private_key_from_keystore, hrem]
      simp [hw]

theorem create_account_ok_shape (m : AccountManager) (name password : String)
    (kp : NostrKeypair) (uuid now salt : String) (nonce : List Nat)
    (salt2 : String) (nonce2 : List Nat) (info : AccountInfo) (m' : AccountManager)
    (hok : create_account m name password kp uuid now salt nonce salt2 nonce2 =
      (Except.ok info, m')) :
    info = { id := uuid, name := name, public_key_hex := kp.public_key_hex,
             public_key_npub := kp.public_key_npub, created_at := now,
             is_active := m.accounts_config.accounts.isEmpty } ∧
    m'.accounts_config =
      { accounts := m.accounts_config.accounts ++ [info],
        active_account_id :=
          if m.accounts_config.active_account_id.isNone then some uuid
          else m.accounts_config.active_account_id,
        security_settings := m.accounts_config.security_settings } := by
  unfold create_account at hok
  by_cases hu : m.is_unlocked
  · rw [if_pos hu] at hok
    try dsimp only at hok
    split at hok
    next e2 m2 heq2 => simp at hok
    next u2 m2 heq2 =>
      have e2c : m2.accounts_config = m.accounts_config := by
        have := addkey_config_eq m uuid kp.secret_key_hex password salt2 nonce2
        rw [heq2] at this
        exact this
      injection hok with hA hB
      injection hA with hA
      subst hA
      subst hB
      refine ⟨rfl, ?_⟩
      try dsimp only
      rw [config_update_normal, e2c]
  · rw [if_neg hu] at hok
    try dsimp only at hok
    split at hok
    next e m1 heq => simp at hok
    next u m1 heq =>
      have e1 : m1.accounts_config = m.accounts_config := by
        have := unlock_config_eq m password salt nonce
        rw [heq] at this
        exact this
      try dsimp only at hok
      split at hok
      next e2 m2 heq2 => simp at hok
      next u2 m2 heq2 =>
        have e2c : m2.accounts_config = m1.accounts_config := by
          have := addkey_config_eq m1 uuid kp.secret_key_hex password salt2 nonce2
          rw [heq2] at this
          exact this
        injection hok with hA hB
        injection hA with hA
        subst hA
        subst hB
        refine ⟨by rw [e1], ?_⟩
        try dsimp only
        rw [config_update_normal, e2c, e1]

/-! ## Theorems: create_account bootstrap and first-account activation (C7) -/
/-- C7: when the keystore file does not exist (store locked, nothing
persisted), create_account bootstraps an empty keystore under the
supplied password and succeeds, leaving a keystore that decrypts
under that password to the singleton map with the new secret; the
returned record has is_active = true exactly when the accounts list
was empty; and from an empty configuration the first account created
becomes the active account. -/
theorem create_account_bootstrap_first_active (m : AccountManager)
    (name password : String) (kp : NostrKeypair) (uuid now salt : String)
    (nonce : List Nat) (salt2 : String) (nonce2 : List Nat) :
    (m.unlocked_keys = none → m.keystore_file = none →
      ∃ info m', create_account m name password kp uuid now salt nonce salt2 nonce2 =
          (Except.ok info, m') ∧
        ∃ ks', m'.keystore_file = some ks' ∧
          decrypt_keystore ks' password =
            Except.ok (kmInsert [] uuid kp.secret_key_hex)) ∧
    (∀ info m', create_account m name password kp uuid now salt nonce salt2 nonce2 =
        (Except.ok info, m') →
      (info.is_active = true ↔ m.accounts_config.accounts = [])) ∧
    (m.accounts_config.accounts = [] → m.accounts_config.active_account_id = none →
      ∀ info m', create_account m name password kp uuid now salt nonce salt2 nonce2 =
          (Except.ok info, m') →
        info.is_active = true ∧ m'.accounts_config.accounts = [info] ∧
        m'.accounts_config.active_account_id = some info.id) := by
  refine ⟨?_, ?_, ?_⟩
  · intro huk hkf
    obtain ⟨cfg, uk, kf⟩ := m
    obtain rfl : uk = none := huk
    obtain rfl : kf = none := hkf
    have hadd : add_key_to_keystore (create_keystore [] password salt nonce) password
        uuid kp.secret_key_hex salt2 nonce2 =
        Except.ok
          (create_keystore (kmInsert [] uuid kp.secret_key_hex) password salt2
            nonce2) := by
      simp [add_key_to_keystore, decrypt_create]
    have heval : create_account (AccountManager.mk cfg none none) name password kp
        uuid now salt nonce salt2 nonce2 =
        (Except.ok (AccountInfo.mk uuid name kp.public_key_hex kp.public_key_npub
            now cfg.accounts.isEmpty),
         AccountManager.mk
           { accounts := cfg.accounts ++
               [AccountInfo.mk uuid name kp.public_key_hex kp.public_key_npub now
                 cfg.accounts.isEmpty],
             active_account_id :=
               if cfg.active_account_id.isNone then some uuid
               else cfg.active_account_id,
             security_settings := cfg.security_settings }
           (some (kmInsert [] uuid kp.secret_key_hex))
           (some (create_keystore (kmInsert [] uuid kp.secret_key_hex) password
             salt2 nonce2))) := by
      simp only [create_account, AccountManager.is_unlocked, Option.isSome_none,
        unlock_keystore, add_private_key_to_keystore]
      simp only [Bool.false_eq_true, if_false]
      try dsimp only
      rw [hadd]
      try dsimp only
      rw [config_update_normal]
    exact ⟨_, _, heval, _, rfl, decrypt_create _ _ _ _⟩
  · intro info m' hok
    obtain ⟨hinfo, _⟩ := create_account_ok_shape m name password kp uuid now salt
      nonce salt2 nonce2 info m' hok
    rw [hinfo]
    simp [List.isEmpty_iff]
  · intro hacc hact info m' hok
    obtain ⟨hinfo, hcfg⟩ := create_account_ok_shape m name password kp uuid now salt
      nonce salt2 nonce2 info m' hok
    refine ⟨?_, ?_, ?_⟩
    · rw [hinfo]
      simp [hacc]
    · rw [hcfg, hacc]
      simp
    · rw [hcfg, hinfo, hact]
      simp

theorem delete_account_spec_witness :
    ∃ m', delete_account mgr1 "a1" "pw" "s" [0] "s2" [1] = (Except.ok (), m') ∧
      m'.accounts_config.accounts = mgr1.accounts_config.accounts.eraseIdx 0 ∧
      m'.accounts_config.active_account_id =
        (if mgr1.accounts_config.active_account_id == some "a1"
         then ((mgr1.accounts_config.accounts.eraseIdx 0).head?.map (fun a => a.id))
         else mgr1.accounts_config.active_account_id) ∧
      m'.unlocked_keys = some (kmRemove [("a1", "sk1")] "a1") ∧
      ∃ ks', m'.keystore_file = some ks' ∧
        decrypt_keystore ks' "pw" = Except.ok (kmRemove [("a1", "sk1")] "a1") :=
  (delete_account_spec mgr1 "a1" "pw" "s" [0] "s2" [1] [("a1", "sk1")]
    [("a1", "sk1")] "salt0" [0] rfl).2 0 (by decide) rfl

theorem create_account_bootstrap_first_active_witness :
    ∃ info m', create_account mgrLocked "alice" "pw" kp0 "u1" "now" "s" [0] "s2" [1] =
        (Except.ok info, m') ∧
      ∃ ks', m'.keystore_file = some ks' ∧
        decrypt_keystore ks' "pw" = Except.ok (kmInsert [] "u1" kp0.secret_key_hex) :=
  (create_account_bootstrap_first_active mgrLocked "alice" "pw" kp0 "u1" "now" "s"
    [0] "s2" [1]).1 rfl rfl

/-! ## Theorems: get_account and get_active_account (C8) -/
/-- C8 counterexample: with the store unlocked, a record for a1
present but no secret for it in the in-memory key map, get_account
returns Ok(none) rather than failing with an error. -/
theorem get_account_missing_secret_returns_none :
    (mgrNoSecret.accounts_config.accounts.any (fun a => a.id == "a1")) = true ∧
    mgrNoSecret.unlocked_keys = some [] ∧
    get_account mgrNoSecret "a1" = Except.ok none := by
  refine ⟨by decide, rfl, by rfl⟩

/-- C8 (amended): both lookups fail with the locked error while the
store is locked.  Unlocked, get_active_account returns none exactly
when no active account is configured, fails when the active record
is missing from the list or its secret is missing from the key map,
and returns the identity when both resolve; get_account returns none
when no record has the id and also (diverging from the claim) when
the record exists but the key map holds no secret for it, returning
the identity only when both resolve. -/
theorem get_account_characterization (m : AccountManager) (account_id : String) :
    (m.unlocked_keys = none →
      get_account m account_id = Except.error Err.locked ∧
      get_active_account m = Except.error Err.locked) ∧
    (∀ u, m.unlocked_keys = some u →
      (m.accounts_config.accounts.find? (fun a => a.id == account_id) = none →
        get_account m account_id = Except.ok none) ∧
      (∀ info,
        m.accounts_config.accounts.find? (fun a => a.id == account_id) = some info →
        kmLookup u account_id = none →
        get_account m account_id = Except.ok none) ∧
      (∀ info sk kp,
        m.accounts_config.accounts.find? (fun a => a.id == account_id) = some info →
        kmLookup u account_id = some sk →
        keypair_from_hex sk = Except.ok kp →
        get_account m account_id = Except.ok (some ⟨info, kp⟩)) ∧
      (m.accounts_config.active_account_id = none →
        get_active_account m = Except.ok none) ∧
      (∀ aid, m.accounts_config.active_account_id = some aid →
        (m.accounts_config.accounts.find? (fun a => a.id == aid) = none →
          get_active_account m = Except.error Err.activeNotFound) ∧
        (∀ info,
          m.accounts_config.accounts.find? (fun a => a.id == aid) = some info →
          kmLookup u aid = none →
          get_active_account m = Except.error Err.keyNotFound) ∧
        (∀ info sk kp,
          m.accounts_config.accounts.find? (fun a => a.id == aid) = some info →
          kmLookup u aid = some sk →
          keypair_from_hex sk = Except.ok kp →
          get_active_account m = Except.ok (some ⟨info, kp⟩)))) := by
  constructor
  · intro hu
    constructor
    · simp [get_account, hu]
    · simp [get_active_account, hu]
  · intro u hu
    refine ⟨?_, ?_, ?_, ?_, ?_⟩
    · intro hfind
      simp [get_account, hu, hfind]
    · intro info hfind hkm
      simp [get_account, hu, hfind, hkm]
    · intro info sk kp hfind hkm hkp
      simp [get_account, hu, hfind, hkm, hkp]
    · intro hact
      simp [get_active_account, hu, hact]
    · intro aid hact
      refine ⟨?_, ?_, ?_⟩
      · intro hfind
        simp [get_active_account, hu, hact, hfind]
      · intro info hfind hkm
        simp [get_active_account, hu, hact, hfind, hkm]
      · intro info sk kp hfind hkm hkp
        simp [get_active_account, hu, hact, hfind, hkm, hkp]

theorem get_account_characterization_witness :
    mgrLocked.unlocked_keys = none ∧
    get_account mgrLocked "a1" = Except.error Err.locked ∧
    get_active_account mgrLocked = Except.error Err.locked :=
  ⟨rfl,
    ((get_account_characterization mgrLocked "a1").1 rfl).1,
    ((get_account_characterization mgrLocked "a1").1 rfl).2⟩

theorem unhexL_hexLower (x : Nat) (h : x < 16) : unhexL (hexLower x) = x := by
  interval_cases x <;> decide

theorem escDecode_escChar (c : Char) (r : List Char) :
    escDecode (escChar c ++ r) = some (c, r) := by
  unfold escChar
  split_ifs with h1 h2 h3 h4 h5 h6 h7 h8
  · subst h1; simp [escDecode]
  · subst h2; simp [escDecode]
  · subst h3; simp [escDecode]
  · subst h4; simp [escDecode]
  · subst h5; simp [escDecode]
  · have hc : c = Char.ofNat 8 := by rw [← h6, Char.ofNat_toNat]
    simp [escDecode, hc]
  · have hc : c = Char.ofNat 12 := by rw [← h7, Char.ofNat_toNat]
    simp [escDecode, hc]
  · have hdiv : c.toNat / 16 < 16 := by omega
    have hmod : c.toNat % 16 < 16 := by omega
    have hc : Char.ofNat (16 * (c.toNat / 16) + c.toNat % 16) = c := by
      rw [Nat.div_add_mod, Char.ofNat_toNat]
    simp [escDecode, unhexL_hexLower _ hdiv, unhexL_hexLower _ hmod, hc]
  · simp [escDecode, h2]

theorem escChar_pf (c1 c2 : Char) (t1 t2 : List Char)
    (h : escChar c1 ++ t1 = escChar c2 ++ t2) : c1 = c2 ∧ t1 = t2 := by
  have hd := congrArg escDecode h
  rw [escDecode_escChar, escDecode_escChar] at hd
  have hp := Option.some.inj hd
  exact ⟨congrArg Prod.fst hp, congrArg Prod.snd hp⟩

theorem escChar_head (c : Char) :
    ∃ h rest, escChar c = h :: rest ∧ h ≠ '"' := by
  unfold escChar
  split_ifs with h1 h2 h3 h4 h5 h6 h7 h8
  · exact ⟨'\\', _, rfl, by decide⟩
  · exact ⟨'\\', _, rfl, by decide⟩
  · exact ⟨'\\', _, rfl, by decide⟩
  · exact ⟨'\\', _, rfl, by decide⟩
  · exact ⟨'\\', _, rfl, by decide⟩
  · exact ⟨'\\', _, rfl, by decide⟩
  · exact ⟨'\\', _, rfl, by decide⟩
  · exact ⟨'\\', _, rfl, by decide⟩
  · exact ⟨c, [], rfl, h1⟩

theorem escList_cancel : ∀ (l1 l2 t1 t2 : List Char),
    escList l1 ++ '"' :: t1 = escList l2 ++ '"' :: t2 → l1 = l2 ∧ t1 = t2 := by
  intro l1
  induction l1 with
  | nil =>
    intro l2 t1 t2 h
    cases l2 with
    | nil => simpa [escList] using h
    | cons c cs =>
      exfalso
      obtain ⟨hd, rest, he, hne⟩ := escChar_head c
      simp only [escList, List.flatMap_cons, List.nil_append, List.append_assoc] at h
      rw [he] at h
      simp only [List.cons_append] at h
      exact hne (List.head_eq_of_cons_eq h.symm ▸ rfl)
  | cons c cs ih =>
    intro l2 t1 t2 h
    cases l2 with
    | nil =>
      exfalso
      obtain ⟨hd, rest, he, hne⟩ := escChar_head c
      simp only [escList, List.flatMap_cons, List.nil_append, List.append_assoc] at h
      rw [he] at h
      simp only [List.cons_append] at h
      exact hne (List.head_eq_of_cons_eq h ▸ rfl)
    | cons d ds =>
      simp only [escList, List.flatMap_cons, List.append_assoc] at h
      obtain ⟨hcd, htail⟩ := escChar_pf c d _ _ h
      obtain ⟨hcs, ht⟩ := ih ds t1 t2 (by simpa [escList] using htail)
      exact ⟨by rw [hcd, hcs], ht⟩

theorem encStr_cancel (s1 s2 : String) (t1 t2 : List Char)
    (h : encStr s1 ++ t1 = encStr s2 ++ t2) : s1 = s2 ∧ t1 = t2 := by
  simp only [encStr, List.cons_append, List.append_assoc] at h
  have h2 := List.tail_eq_of_cons_eq h
  obtain ⟨hdata, ht⟩ := escList_cancel s1.data s2.data t1 t2 (by simpa using h2)
  exact ⟨congrArg String.mk hdata, ht⟩

theorem digitChar_toNat (d : Nat) (h : d < 10) :
    (Nat.digitChar d).toNat = 48 + d := by
  interval_cases d <;> decide

theorem digitChar_isDigit (d : Nat) (h : d < 10) :
    (Nat.digitChar d).isDigit = true := by
  interval_cases d <;> decide

theorem digitsRevVal_natDigitsRev : ∀ n, digitsRevVal (natDigitsRev n) = n := by
  intro n
  induction n using Nat.strong_induction_on with
  | _ n ih =>
    rw [natDigitsRev]
    split_ifs with h
    · rw [digitsRevVal, digitsRevVal, digitChar_toNat n h]
      omega
    · rw [digitsRevVal, digitChar_toNat (n % 10) (Nat.mod_lt _ (by omega))]
      rw [ih (n / 10) (Nat.div_lt_self (by omega) (by omega))]
      omega

theorem natDigitsRev_all_digits : ∀ n c, c ∈ natDigitsRev n → c.isDigit = true := by
  intro n
  induction n using Nat.strong_induction_on with
  | _ n ih =>
    intro c hc
    rw [natDigitsRev] at hc
    split_ifs at hc with h
    · rw [List.mem_singleton] at hc
      exact hc ▸ digitChar_isDigit n h
    · rw [List.mem_cons] at hc
      rcases hc with rfl | hc
      · exact digitChar_isDigit (n % 10) (Nat.mod_lt _ (by omega))
      · exact ih (n / 10) (Nat.div_lt_self (by omega) (by omega)) c hc

theorem encNat_all_digits (n : Nat) (c : Char) (hc : c ∈ encNat n) :
    c.isDigit = true :=
  natDigitsRev_all_digits n c (List.mem_reverse.mp hc)

theorem encNat_inj (n1 n2 : Nat) (h : encNat n1 = encNat n2) : n1 = n2 := by
  have hrev : natDigitsRev n1 = natDigitsRev n2 := List.reverse_inj.mp h
  have := congrArg digitsRevVal hrev
  rwa [digitsRevVal_natDigitsRev, digitsRevVal_natDigitsRev] at this

theorem digits_append_cancel : ∀ (d1 d2 r1 r2 : List Char),
    (∀ c ∈ d1, c.isDigit = true) → (∀ c ∈ d2, c.isDigit = true) →
    d1 ++ ',' :: r1 = d2 ++ ',' :: r2 → d1 = d2 ∧ r1 = r2 := by
  intro d1
  induction d1 with
  | nil =>
    intro d2 r1 r2 _ hd2 h
    cases d2 with
    | nil => simpa using h
    | cons c cs =>
      exfalso
      simp only [List.nil_append, List.cons_append] at h
      have hc : c = ',' := (List.head_eq_of_cons_eq h.symm)
      have hdig := hd2 c (by simp)
      rw [hc] at hdig
      simp at hdig
  | cons c cs ih =>
    intro d2 r1 r2 hd1 hd2 h
    cases d2 with
    | nil =>
      exfalso
      simp only [List.nil_append, List.cons_append] at h
      have hc : c = ',' := (List.head_eq_of_cons_eq h)
      have := hd1 c (by simp)
      simp_all
    | cons d ds =>
      simp only [List.cons_append] at h
      have hcd : c = d := List.head_eq_of_cons_eq h
      have htail := List.tail_eq_of_cons_eq h
      obtain ⟨h1, h2⟩ := ih ds r1 r2 (fun x hx => hd1 x (by simp [hx]))
        (fun x hx => hd2 x (by simp [hx])) htail
      exact ⟨by rw [hcd, h1], h2⟩

theorem encNat_cancel (n1 n2 : Nat) (r1 r2 : List Char)
    (h : encNat n1 ++ ',' :: r1 = encNat n2 ++ ',' :: r2) :
    n1 = n2 ∧ r1 = r2 := by
  obtain ⟨h1, h2⟩ := digits_append_cancel (encNat n1) (encNat n2) r1 r2
    (encNat_all_digits n1) (encNat_all_digits n2) h
  exact ⟨encNat_inj n1 n2 h1, h2⟩

theorem sep_cancel {α : Type} (E : α → List Char)
    (hE : ∀ a b t1 t2, E a ++ t1 = E b ++ t2 → a = b ∧ t1 = t2)
    (hhead : ∀ a, ∃ h rest, E a = h :: rest ∧ h ≠ ',' ∧ h ≠ ']') :
    ∀ (l1 : List α), ∀ (l2 : List α) (r1 r2 : List Char),
      sepByComma (l1.map E) ++ ']' :: r1 = sepByComma (l2.map E) ++ ']' :: r2 →
      l1 = l2 ∧ r1 = r2 := by
  intro l1
  induction l1 with
  | nil =>
    intro l2 r1 r2 h
    cases l2 with
    | nil => simpa [sepByComma] using h
    | cons d ds =>
      exfalso
      obtain ⟨hd, rest, he, hne1, hne2⟩ := hhead d
      simp only [sepByComma, List.map_cons, List.map_nil, List.nil_append,
        List.append_assoc] at h
      rw [he] at h
      simp only [List.cons_append] at h
      exact hne2 (List.head_eq_of_cons_eq h.symm ▸ rfl)
  | cons c cs ih =>
    intro l2 r1 r2 h
    cases l2 with
    | nil =>
      exfalso
      obtain ⟨hd, rest, he, hne1, hne2⟩ := hhead c
      simp only [sepByComma, List.map_cons, List.map_nil, List.nil_append,
        List.append_assoc] at h
      rw [he] at h
      simp only [List.cons_append] at h
      exact hne2 (List.head_eq_of_cons_eq h ▸ rfl)
    | cons d ds =>
      simp only [sepByComma, List.map_cons, List.append_assoc] at h
      obtain ⟨hcd, htail⟩ := hE c d _ _ h
      cases cs with
      | nil =>
        cases ds with
        | nil =>
          simp only [List.map_nil, List.isEmpty_nil, if_true, List.nil_append,
            List.cons.injEq] at htail
          exact ⟨by rw [hcd], htail.2⟩
        | cons d' ds' =>
          exfalso
          simp only [List.map_nil, List.isEmpty_nil, if_true, List.nil_append,
            List.map_cons, List.isEmpty_cons, if_false, List.cons_append] at htail
          exact absurd (List.head_eq_of_cons_eq htail) (by decide)
      | cons c' cs' =>
        cases ds with
        | nil =>
          exfalso
          simp only [List.map_nil, List.isEmpty_nil, if_true, List.nil_append,
            List.map_cons, List.isEmpty_cons, if_false, List.cons_append] at htail
          exact absurd (List.head_eq_of_cons_eq htail) (by decide)
        | cons d' ds' =>
          simp only [List.map_cons, List.isEmpty_cons, Bool.false_eq_true,
            if_false, List.cons_append, List.cons.injEq, List.append_assoc] at htail
          obtain ⟨h1, h2⟩ := ih (d' :: ds') r1 r2 (by
            simp only [List.map_cons]
            exact htail.2)
          exact ⟨by rw [hcd, h1], h2⟩

theorem encArr_cancel {α : Type} (E : α → List Char)
    (hE : ∀ a b t1 t2, E a ++ t1 = E b ++ t2 → a = b ∧ t1 = t2)
    (hhead : ∀ a, ∃ h rest, E a = h :: rest ∧ h ≠ ',' ∧ h ≠ ']')
    (l1 l2 : List α) (r1 r2 : List Char)
    (h : encArr (l1.map E) ++ r1 = encArr (l2.map E) ++ r2) :
    l1 = l2 ∧ r1 = r2 := by
  simp only [encArr, List.cons_append, List.append_assoc, List.cons.injEq] at h
  exact sep_cancel E hE hhead l1 l2 r1 r2 (by simpa using h.2)

theorem encStrList_cancel (xs1 xs2 : List String) (r1 r2 : List Char)
    (h : encStrList xs1 ++ r1 = encStrList xs2 ++ r2) : xs1 = xs2 ∧ r1 = r2 :=
  encArr_cancel encStr encStr_cancel
    (fun s => ⟨'"', _, rfl, by decide, by decide⟩) xs1 xs2 r1 r2 h

theorem encTags_cancel (tags1 tags2 : List (List String)) (r1 r2 : List Char)
    (h : encTags tags1 ++ r1 = encTags tags2 ++ r2) : tags1 = tags2 ∧ r1 = r2 :=
  encArr_cancel encStrList encStrList_cancel
    (fun xs => ⟨'[', _, rfl, by decide, by decide⟩) tags1 tags2 r1 r2 h

theorem canonicalSerialize_inj (e1 e2 : UnsignedEvent)
    (h : canonicalSerialize e1 = canonicalSerialize e2) : e1 = e2 := by
  obtain ⟨pk1, ca1, k1, tg1, ct1⟩ := e1
  obtain ⟨pk2, ca2, k2, tg2, ct2⟩ := e2
  have h := congrArg String.data h
  simp only [canonicalSerialize, List.cons.injEq, eq_self_iff_true, true_and] at h
  obtain ⟨hpk, h⟩ := encStr_cancel pk1 pk2 _ _ h
  rw [List.cons.injEq] at h
  obtain ⟨hca, h⟩ := encNat_cancel ca1 ca2 _ _ h.2
  obtain ⟨hk, h⟩ := encNat_cancel k1 k2 _ _ h
  obtain ⟨htg, h⟩ := encTags_cancel tg1 tg2 _ _ h
  rw [List.cons.injEq] at h
  obtain ⟨hct, -⟩ := encStr_cancel ct1 ct2 _ _ h.2
  simp [hpk, hca, hk, htg, hct]

/-! ## Theorems: calculate_id (C4) -/
/-- C4: calculate_id is exactly the external SHA-256/hex pipeline
applied to the canonical serialization of the five fields; it is a
pure deterministic function of exactly those five fields; whenever
the external digest pipeline is injective (no hash collision), any
change to one of the five fields changes the id; and whenever the
pipeline returns 64-character strings (as SHA-256 hex encoding
does), the id has 64 characters. -/
theorem calculate_id_spec :
    (∀ (sha256hex : String → String) (e : UnsignedEvent),
      calculate_id sha256hex e = sha256hex (canonicalSerialize e)) ∧
    (∀ (sha256hex : String → String) (e1 e2 : UnsignedEvent),
      e1.pubkey = e2.pubkey → e1.created_at = e2.created_at → e1.kind = e2.kind →
      e1.tags = e2.tags → e1.content = e2.content →
      calculate_id sha256hex e1 = calculate_id sha256hex e2) ∧
    (∀ sha256hex : String → String, Function.Injective sha256hex →
      ∀ e1 e2 : UnsignedEvent, e1 ≠ e2 →
        calculate_id sha256hex e1 ≠ calculate_id sha256hex e2) ∧
    (∀ sha256hex : String → String, (∀ s, (sha256hex s).length = 64) →
      ∀ e : UnsignedEvent, (calculate_id sha256hex e).length = 64) := by
  refine ⟨fun _ _ => rfl, ?_, ?_, ?_⟩
  · intro sha256hex e1 e2 h1 h2 h3 h4 h5
    obtain ⟨pk1, ca1, k1, tg1, ct1⟩ := e1
    obtain ⟨pk2, ca2, k2, tg2, ct2⟩ := e2
    simp only at h1 h2 h3 h4 h5
    rw [h1, h2, h3, h4, h5]
  · intro sha256hex hinj e1 e2 hne heq
    exact hne (canonicalSerialize_inj e1 e2 (hinj heq))
  · intro sha256hex hlen e
    exact hlen _

theorem calculate_id_spec_witness :
    Function.Injective (fun s : String => s) ∧
    ev1 ≠ ev2 ∧
    calculate_id (fun s => s) ev1 ≠ calculate_id (fun s => s) ev2 ∧
    (∀ s : String, ((fun _ : String => zeros64) s).length = 64) ∧
    (calculate_id (fun _ : String => zeros64) ev1).length = 64 :=
  ⟨fun _ _ h => h, by decide,
    calculate_id_spec.2.2.1 (fun s => s) (fun _ _ h => h) ev1 ev2 (by decide),
    fun _ => rfl,
    calculate_id_spec.2.2.2 (fun _ => zeros64) (fun _ => rfl) ev1⟩

/-! ## Theorems: verify_signature (C3) -/
/-- C3 counterexample: an event whose decoded signature has length 0
(not 64) makes verify_signature return Ok(false) rather than report
an error, and this does not depend on the secp256k1 oracle. -/
theorem verify_signature_short_sig_is_false :
    hexDecode evBadSig.sig = some [] ∧
    verify_signature secp0 evBadSig zeros64 = Except.ok false := by
  constructor
  · rfl
  · rfl

/-- C3 (amended): verify_signature reports malformed hex of the id,
sig or supplied pubkey as an error, and a decoded id length other
than 32 bytes (after the sig and pubkey checks pass) as an error; a
decoded sig length other than 64 bytes, or a decoded pubkey length
other than 32 bytes, returns the boolean false rather than an error;
a 32-byte pubkey rejected by the x-only validity check is an error;
otherwise the Schnorr boolean is returned as Ok. -/
theorem verify_signature_characterization (secp : SecpOracle) (ev : NostrEvent)
    (pk : String) :
    (hexDecode ev.id = none →
      verify_signature secp ev pk = Except.error Err.hexError) ∧
    (∀ idb, hexDecode ev.id = some idb → hexDecode ev.sig = none →
      verify_signature secp ev pk = Except.error Err.hexError) ∧
    (∀ idb sigb, hexDecode ev.id = some idb → hexDecode ev.sig = some sigb →
      hexDecode pk = none →
      verify_signature secp ev pk = Except.error Err.hexError) ∧
    (∀ idb sigb pkb, hexDecode ev.id = some idb → hexDecode ev.sig = some sigb →
      hexDecode pk = some pkb → sigb.length ≠ 64 →
      verify_signature secp ev pk = Except.ok false) ∧
    (∀ idb sigb pkb, hexDecode ev.id = some idb → hexDecode ev.sig = some sigb →
      hexDecode pk = some pkb → sigb.length = 64 → pkb.length ≠ 32 →
      verify_signature secp ev pk = Except.ok false) ∧
    (∀ idb sigb pkb, hexDecode ev.id = some idb → hexDecode ev.sig = some sigb →
      hexDecode pk = some pkb → sigb.length = 64 → pkb.length = 32 →
      secp.xonlyValid pkb = false →
      verify_signature secp ev pk = Except.error Err.xonlyError) ∧
    (∀ idb sigb pkb, hexDecode ev.id = some idb → hexDecode ev.sig = some sigb →
      hexDecode pk = some pkb → sigb.length = 64 → pkb.length = 32 →
      secp.xonlyValid pkb = true → idb.length ≠ 32 →
      verify_signature secp ev pk = Except.error Err.msgLenError) ∧
    (∀ idb sigb pkb, hexDecode ev.id = some idb → hexDecode ev.sig = some sigb →
      hexDecode pk = some pkb → sigb.length = 64 → pkb.length = 32 →
      secp.xonlyValid pkb = true → idb.length = 32 →
      verify_signature secp ev pk =
        Except.ok (secp.verifySchnorr sigb idb pkb)) := by
  refine ⟨?_, ?_, ?_, ?_, ?_, ?_, ?_, ?_⟩
  · intro h
    simp [verify_signature, h]
  · intro idb h1 h2
    simp [verify_signature, h1, h2]
  · intro idb sigb h1 h2 h3
    simp [verify_signature, h1, h2, h3]
  · intro idb sigb pkb h1 h2 h3 h4
    simp [verify_signature, h1, h2, h3, h4]
  · intro idb sigb pkb h1 h2 h3 h4 h5
    simp [verify_signature, h1, h2, h3, h4, h5]
  · intro idb sigb pkb h1 h2 h3 h4 h5 h6
    simp [verify_signature, h1, h2, h3, h4, h5, h6]
  · intro idb sigb pkb h1 h2 h3 h4 h5 h6 h7
    simp [verify_signature, h1, h2, h3, h4, h5, h6, h7]
  · intro idb sigb pkb h1 h2 h3 h4 h5 h6 h7
    simp [verify_signature, h1, h2, h3, h4, h5, h6, h7]

theorem verify_signature_characterization_witness :
    hexDecode evBadId.id = none ∧
    verify_signature secp0 evBadId zeros64 = Except.error Err.hexError :=
  ⟨rfl, (verify_signature_characterization secp0 evBadId zeros64).1 rfl⟩
